import Mathlib

/-!
# Verification of the thunter task tracker core

A shallow embedding of the task state machine, time-tracking ledger, task
store and text codec of the `thunter` repository
(`src/thunter/task_hunter.py`, `src/thunter/models/task.py`,
`src/thunter/models/task_history_record.py`, `src/thunter/task_parser.py`),
together with proofs and refutations of the specification claims about them.

Machine integers are modelled as unbounded `Int` (Python integers are
unbounded; SQLite stores 64-bit integers, but no claim depends on overflow).
Wall-clock reads (`now()`, `time()`) are passed in explicitly as parameters.
Database state is modelled as in-memory lists in insertion (rowid) order;
each lifecycle operation is a function from store to store, raising errors
through `Except`.
-/

namespace Thunter

/-- `Status` enum from `src/thunter/constants.py`. -/
inductive Status where
  | current
  | inProgress
  | todo
  | finished
deriving DecidableEq, Repr

/-- The string value of each enum member (`Status.CURRENT = "Current"`, ...). -/
def Status.value : Status → String
  | .current => "Current"
  | .inProgress => "In Progress"
  | .todo => "TODO"
  | .finished => "Finished"

/-- Python `"%s" % status` on a member of the plain `Enum` class `Status`:
`str` of a plain enum member renders `ClassName.MEMBER_NAME`
(`"%s" % Status.FINISHED == "Status.FINISHED"`), not the member's value. -/
def pyStrStatus : Status → String
  | .current => "Status.CURRENT"
  | .inProgress => "Status.IN_PROGRESS"
  | .todo => "Status.TODO"
  | .finished => "Status.FINISHED"

/-- `STATUS_ORDERING` from `src/thunter/constants.py`. -/
def STATUS_ORDERING : List String :=
  [Status.current.value, Status.inProgress.value, Status.todo.value, Status.finished.value]

/-- `STATUS_ORDERING.index(status.value)` as used by `Task.__lt__`. -/
def statusIndex (s : Status) : Nat :=
  STATUS_ORDERING.indexOf s.value

/-- `Task` named tuple from `src/thunter/models/task.py`. -/
structure Task where
  id : Int
  name : String
  estimate : Option Int
  description : Option String
  status : Status
  last_modified : Int
deriving DecidableEq, Repr

/-- `Task.__lt__`: lexicographic comparison of
`(STATUS_ORDERING.index(status.value), -last_modified)`. -/
def task_lt (a b : Task) : Bool :=
  statusIndex a.status < statusIndex b.status ||
    (statusIndex a.status == statusIndex b.status &&
      decide ((-a.last_modified) < (-b.last_modified)))

/-- `TaskHistoryRecord` named tuple from
`src/thunter/models/task_history_record.py`. -/
structure TaskHistoryRecord where
  id : Int
  taskid : Int
  is_start : Bool
  time : Int
deriving DecidableEq, Repr

/-- `TaskHistoryRecord.__lt__`: lexicographic comparison of
`(taskid, time, not is_start)` (so at equal `taskid` and `time`,
a start sorts before a stop, `False < True` in Python). -/
def hist_lt (a b : TaskHistoryRecord) : Bool :=
  decide (a.taskid < b.taskid) ||
    (a.taskid == b.taskid &&
      (decide (a.time < b.time) ||
        (a.time == b.time && ((!a.is_start) < (!b.is_start)))))

/-- The loop of `TaskHistoryRecord.calc_progress`: walks the records carrying
the running total and the currently open start time (`start_time`, `None`
when no interval is open).  A stop record with no open start raises a
`TypeError` in Python (`int - None`); that crash is modelled as `none`. -/
def calcLoop : List TaskHistoryRecord → Int → Option Int → Option (Int × Option Int)
  | [], progress, st => some (progress, st)
  | r :: rest, progress, st =>
    if r.is_start then
      calcLoop rest progress (some r.time)
    else
      match st with
      | some s => calcLoop rest (progress + (r.time - s)) none
      | none => none

/-- `TaskHistoryRecord.calc_progress(task_history)` with the wall-clock read
`int(time())` passed in as `nowT`.  The trailing open interval is added only
when `task_history and start_time` is truthy in Python: the history is
non-empty, `start_time` is not `None`, and `start_time` is not `0`. -/
def calc_progress (task_history : List TaskHistoryRecord) (nowT : Int) : Option Int :=
  match calcLoop task_history 0 none with
  | none => none
  | some (progress, none) => some progress
  | some (progress, some startTime) =>
    if task_history.isEmpty || startTime == 0 then some progress
    else some (progress + (nowT - startTime))

/-- `ParsedTaskHistoryRecord` dataclass from `src/thunter/task_parser.py`. -/
structure ParsedTaskHistoryRecord where
  is_start : Bool
  time : Int
deriving DecidableEq, Repr

/-- `ParsedTaskData` dataclass from `src/thunter/task_parser.py`. -/
structure ParsedTaskData where
  name : String
  estimate : Option Int
  description : Option String
  status : Status
  history : List ParsedTaskHistoryRecord
deriving DecidableEq, Repr

/-- `thunter_assert(expr, message)`: raises `ThunterTaskValidationError` with
the decorated message when `expr` is falsy. -/
def thunter_assert (expr : Bool) (message : String) : Except String Unit :=
  if expr then Except.ok ()
  else Except.error ("[red]Task Validation Error:[/red] " ++ message)

/-- The `for history_data in task_data.history` loop of `validate_task_data`:
carries `expect_start` and `last_history_time` (initially `True` and `0`),
checking ascending time first and alternation second for each record. -/
def validateHistLoop : List ParsedTaskHistoryRecord → Bool → Int → Except String Unit
  | [], _, _ => Except.ok ()
  | r :: rest, expect_start, last_history_time => do
    thunter_assert (decide (last_history_time < r.time))
      "History must be in ascending order by time"
    thunter_assert (r.is_start == expect_start)
      "History must alternate between Start and Stop"
    validateHistLoop rest (!expect_start) r.time

/-- `validate_task_data` from `src/thunter/task_parser.py`.  The Python
`history[-1]` on an empty list would raise `IndexError`; that branch is
unreachable because the non-empty-history assertion fires first, and is
modelled as an error.  The two `"%s"`-formatted messages interpolate the
enum member itself, so they render `Status.FINISHED`-style text
(`pyStrStatus`), not the member's value. -/
def validate_task_data (task_data : ParsedTaskData) : Except String Unit := do
  if task_data.status == Status.todo then
    thunter_assert (task_data.history.length == 0)
      "Can't have a history if the status is TODO"
  else
    thunter_assert (decide (task_data.history.length > 0))
      ("Must have a history if status is " ++ pyStrStatus task_data.status)
  if task_data.status == Status.current then
    match task_data.history.getLast? with
    | some last_history_record =>
      thunter_assert last_history_record.is_start
        "Last history record must be a Start if the status is Current"
    | none => Except.error "IndexError"
  else if task_data.status == Status.inProgress || task_data.status == Status.finished then
    match task_data.history.getLast? with
    | some last_history_record =>
      thunter_assert (!last_history_record.is_start)
        ("Last history record must be a Stop if the status is " ++ pyStrStatus task_data.status)
    | none => Except.error "IndexError"
  else
    pure ()
  validateHistLoop task_data.history true 0

/-- `TaskIdentifier = int | str` from `src/thunter/models/task.py`. -/
inductive TaskIdentifier where
  | tid (n : Int)
  | tname (s : String)
deriving DecidableEq, Repr

/-- The errors raised by `TaskHunter` operations
(`src/thunter/constants.py`): `ThunterCouldNotFindTaskError`,
`ThunterFoundMultipleTasksError`, the bare `AssertionError` raised by
`get_current_task`, and `ThunterTaskValidationError`. -/
inductive ThunterError where
  | couldNotFindTask (msg : String)
  | foundMultipleTasks (msg : String)
  | assertionFailure (msg : String)
  | taskValidation (msg : String)
deriving DecidableEq, Repr

/-- The persistent store: the `tasks` and `history` tables in rowid
(insertion) order, as created by `thunter init`
(`id INTEGER PRIMARY KEY` on both tables). -/
structure Store where
  tasks : List Task
  history : List TaskHistoryRecord
deriving DecidableEq, Repr

/-- The rowid SQLite assigns to the next `INSERT` into `tasks`:
one more than the largest existing rowid (`1` for an empty table). -/
def maxTaskId (s : Store) : Int :=
  s.tasks.foldl (fun m t => max m t.id) 0

/-- The rowid SQLite assigns to the next `INSERT` into `history`. -/
def maxHistId (s : Store) : Int :=
  s.history.foldl (fun m r => max m r.id) 0

/-- `TaskHunter.insert_task`: `INSERT INTO tasks (...) VALUES (...)`,
returning the updated store and the new rowid. -/
def insert_task (s : Store) (name : String) (estimate : Option Int)
    (description : Option String) (status : Status) (last_modified : Int) :
    Store × Int :=
  let nid := maxTaskId s + 1
  (⟨s.tasks ++ [⟨nid, name, estimate, description, status, last_modified⟩], s.history⟩, nid)

/-- `TaskHunter.insert_history`: `INSERT INTO history (taskid,is_start,time)`. -/
def insert_history (s : Store) (taskid : Int) (is_start : Bool) (time : Int) : Store :=
  ⟨s.tasks, s.history ++ [⟨maxHistId s + 1, taskid, is_start, time⟩]⟩

/-- `TaskHunter.update_task_field(taskid, "status", value)`:
`UPDATE tasks SET status=?, last_modified=? WHERE id=?`, with the
`last_modified=now()` refresh.  This is the only field the lifecycle
operations under verification update. -/
def update_task_field_status (s : Store) (taskid : Int) (value : Status) (now : Int) : Store :=
  ⟨s.tasks.map fun t =>
      if t.id == taskid then { t with status := value, last_modified := now } else t,
    s.history⟩

/-- ASCII lower-casing, the case folding SQLite's default `LIKE` applies. -/
def asciiLower (c : Char) : Char :=
  if 'A' ≤ c && c ≤ 'Z' then Char.ofNat (c.toNat + 32) else c

/-- SQLite `LIKE` pattern matching (pattern first, then text): `%` matches
any sequence, `_` matches one character, other characters match
case-insensitively over ASCII.  This is the semantics of the
`name LIKE ?` filters built in `src/thunter/task_hunter.py`.  `fuel`
bounds the recursion depth; every recursive call shrinks the pattern or
the text, so `ps.length + cs.length + 1` at the call site never runs out. -/
def sqlLikeF : Nat → List Char → List Char → Bool
  | 0, _, _ => false
  | _ + 1, [], [] => true
  | _ + 1, [], _ :: _ => false
  | fuel + 1, '%' :: ps, [] => sqlLikeF fuel ps []
  | _ + 1, _ :: _, [] => false
  | fuel + 1, '%' :: ps, c :: cs => sqlLikeF fuel ps (c :: cs) || sqlLikeF fuel ('%' :: ps) cs
  | fuel + 1, '_' :: ps, _ :: cs => sqlLikeF fuel ps cs
  | fuel + 1, p :: ps, c :: cs => asciiLower p == asciiLower c && sqlLikeF fuel ps cs

/-- SQLite `LIKE` at sufficient fuel. -/
def sqlLike (ps cs : List Char) : Bool :=
  sqlLikeF (ps.length + cs.length + 1) ps cs

/-- `name LIKE pattern` on strings. -/
def name_like (name pattern : String) : Bool :=
  sqlLike pattern.data name.data

/-- Stable insertion of `a` into `l` by the strict comparator `lt`: `a`
goes in front of the first element it compares strictly below, hence after
every earlier-inserted element it ties with. -/
def insertOrd (lt : α → α → Bool) (a : α) : List α → List α
  | [] => [a]
  | b :: bs => if lt a b then a :: b :: bs else b :: insertOrd lt a bs

/-- Python's `sorted(l)`: a stable sort driven by `__lt__`.  A stable sort
over a strict weak order has a unique result, so stable insertion sort
models `sorted` exactly. -/
def pySorted (lt : α → α → Bool) (l : List α) : List α :=
  l.foldl (fun acc a => insertOrd lt a acc) []

/-- Python `str.isdigit()` restricted to ASCII digits.  Python's method
also accepts Unicode digit characters, so an identifier written with
non-ASCII digits would take the `id=?` branch in the code but the name
branch here; every string the tool itself renders (and every instance in
this development) is ASCII, where the two agree. -/
def pyIsdigit (s : String) : Bool :=
  !(s == "") && s.data.all Char.isDigit

/-- The numeric value SQLite's INTEGER column affinity assigns to a digit
string parameter when evaluating `id=?`. -/
def digitStrVal (s : String) : Int :=
  Int.ofNat (s.data.foldl (fun a c => a * 10 + (c.toNat - 48)) 0)

/-- Python truthiness of a `TaskIdentifier`: `0` and `""` are falsy. -/
def identFalsy : TaskIdentifier → Bool
  | .tid n => n == 0
  | .tname s => s == ""

/-- `if not task_identifier:` — an omitted (`None`) or falsy identifier. -/
def identOptFalsy : Option TaskIdentifier → Bool
  | none => true
  | some i => identFalsy i

/-- The `status IN (...)` clause appended when the `statuses` argument is
truthy (a non-`None`, non-empty set). -/
def statusFilterOK (statuses : Option (List Status)) (t : Task) : Bool :=
  match statuses with
  | none => true
  | some l => if l.isEmpty then true else l.contains t.status

/-- `TaskHunter.get_current_task`: `SELECT * FROM tasks WHERE status IN
('Current')`; `None` on zero rows, `AssertionError` on more than one. -/
def get_current_task (s : Store) : Except ThunterError (Option Task) :=
  match s.tasks.filter (fun t => t.status == Status.current) with
  | [] => Except.ok none
  | [t] => Except.ok (some t)
  | _ => Except.error (.assertionFailure "More than one current task? How!?")

/-- The identifier branch of `TaskHunter.get_task`: the row filter built
from the identifier (`id=?` for ints and digit strings, `name LIKE ?` with
a trailing `%` otherwise) ANDed with the optional status filter. -/
def identMatches (i : TaskIdentifier) (statuses : Option (List Status)) (t : Task) : Bool :=
  (match i with
    | .tid n => t.id == n
    | .tname str =>
      if pyIsdigit str then t.id == digitStrVal str
      else name_like t.name (str ++ "%")) &&
    statusFilterOK statuses t

/-- `ORDER BY last_modified DESC` (SQLite's tie order is unspecified, and
nothing in `get_task` depends on it: only the row count and the unique row
of a singleton result are ever used). -/
def orderByLastModifiedDesc (l : List Task) : List Task :=
  pySorted (fun a b => decide (b.last_modified < a.last_modified)) l

/-- `TaskHunter.get_task(task_identifier, statuses)`.  A falsy identifier
(`None`, `0`, `""`) returns the current task or raises
`ThunterCouldNotFindTaskError`; otherwise the filtered rows decide the
outcome: zero rows raise `ThunterCouldNotFindTaskError`, more than one
raises `ThunterFoundMultipleTasksError`, and a single row is returned. -/
def get_task (s : Store) (task_identifier : Option TaskIdentifier)
    (statuses : Option (List Status) := none) : Except ThunterError Task :=
  if identOptFalsy task_identifier then
    match get_current_task s with
    | .error e => .error e
    | .ok none => .error (.couldNotFindTask "No Current task found.")
    | .ok (some t) => .ok t
  else
    match task_identifier with
    | none => .error (.couldNotFindTask "unreachable")
    | some i =>
      match orderByLastModifiedDesc (s.tasks.filter (identMatches i statuses)) with
      | [] => .error (.couldNotFindTask "Could not find task for identifier")
      | [t] => .ok t
      | _ => .error (.foundMultipleTasks "Found multiple tasks for identifier")

/-- `TaskHunter.create_task`: insert with `last_modified = now()`, then
fetch the fresh snapshot by its new id. -/
def create_task (s : Store) (name : String) (estimate : Option Int)
    (description : Option String) (status : Status) (now : Int) :
    Except ThunterError (Store × Task) :=
  let p := insert_task s name estimate description status now
  match get_task p.1 (some (.tid p.2)) none with
  | .ok t => .ok (p.1, t)
  | .error e => .error e

/-- `TaskHunter.get_tasks(statuses, starts_with, contains)`: ANDed filters
(each active only when truthy: non-`None` and non-empty), then Python's
stable `sorted` over `Task.__lt__`. -/
def get_tasks (s : Store) (statuses : Option (List Status))
    (starts_with : Option String) (contains : Option String) : List Task :=
  let f := fun (t : Task) =>
    (match starts_with with
      | some sw => if sw == "" then true else name_like t.name (sw ++ "%")
      | none => true) &&
    (match contains with
      | some c => if c == "" then true else name_like t.name ("%" ++ c ++ "%")
      | none => true) &&
    statusFilterOK statuses t
  pySorted task_lt (s.tasks.filter f)

/-- `TaskHunter.get_history(taskids)`: rows with `taskid IN (...)`, then
Python's stable `sorted` over `TaskHistoryRecord.__lt__`. -/
def get_history (s : Store) (taskids : List Int) : List TaskHistoryRecord :=
  pySorted hist_lt (s.history.filter (fun r => taskids.contains r.taskid))

/-- `TaskHunter.workon_task(task_identifier)` with the wall-clock reads of
one call collapsed to a single `now`. -/
def workon_task (s : Store) (task_identifier : TaskIdentifier) (now : Int) :
    Except ThunterError Store := do
  let task ← get_task s (some task_identifier) none
  let current_task ← get_current_task s
  match current_task with
  | some c =>
    if c.id == task.id then pure s
    else
      let s1 := insert_history s c.id false now
      let s2 := update_task_field_status s1 c.id Status.inProgress now
      let s3 := insert_history s2 task.id true now
      pure (update_task_field_status s3 task.id Status.current now)
  | none =>
    let s1 := insert_history s task.id true now
    pure (update_task_field_status s1 task.id Status.current now)

/-- `TaskHunter.stop_current_task()`. -/
def stop_current_task (s : Store) (now : Int) :
    Except ThunterError (Store × Option Task) := do
  let current_task ← get_current_task s
  match current_task with
  | none => pure (s, none)
  | some c =>
    let s1 := insert_history s c.id false now
    let s2 := update_task_field_status s1 c.id Status.inProgress now
    match get_task s2 (some (.tid c.id)) none with
    | .ok t => pure (s2, some t)
    | .error e => .error e

/-- `TaskHunter.finish_task(taskid)`. -/
def finish_task (s : Store) (taskid : Int) (now : Int) :
    Except ThunterError Store := do
  let task ← get_task s (some (.tid taskid)) none
  let s1 := if task.status == Status.current then insert_history s task.id false now else s
  if task.status != Status.finished then
    pure (update_task_field_status s1 task.id Status.finished now)
  else
    pure s1

/-- A lifecycle operation together with its arguments. -/
inductive Op where
  | workon (ident : TaskIdentifier)
  | stop
  | finish (taskid : Int)
  | create (name : String) (estimate : Option Int)
      (description : Option String) (status : Status)
deriving DecidableEq, Repr

/-- Apply one lifecycle operation at wall-clock time `now`. -/
def applyOp (s : Store) (op : Op) (now : Int) : Except ThunterError Store :=
  match op with
  | .workon i => workon_task s i now
  | .stop => (stop_current_task s now).map (·.1)
  | .finish tid => finish_task s tid now
  | .create n e d st => (create_task s n e d st now).map (·.1)

/-- Run one timed operation; a raised error leaves the store as it was
(every failing lookup in these operations happens before the first write). -/
def runOp (s : Store) (p : Op × Int) : Store :=
  match applyOp s p.1 p.2 with
  | .ok s' => s'
  | .error _ => s

/-- Run a sequence of timed lifecycle operations. -/
def runOps (s : Store) (ops : List (Op × Int)) : Store :=
  ops.foldl runOp s

/-- Number of tasks holding status `CURRENT`. -/
def currentCount (s : Store) : Nat :=
  (s.tasks.filter (fun t => t.status == Status.current)).length

/-- Storage-level well-formedness guaranteed by `id INTEGER PRIMARY KEY`
and the tool's own inserts: rowids are distinct and positive. -/
def WfStore (s : Store) : Prop :=
  s.tasks.Pairwise (fun a b => a.id ≠ b.id) ∧ ∀ t ∈ s.tasks, 0 < t.id

/-- The ASCII digit character for `n < 10`. -/
def digitChar (n : Nat) : Char :=
  Char.ofNat (48 + n)

/-- Decimal rendering of a natural number, most significant digit first, no
leading zeros, with a fuel bound on the digit count (`n` itself always
suffices since `n / 10 < n` for positive `n`). -/
def decGo : Nat → Nat → List Char
  | 0, n => [digitChar n]
  | fuel + 1, n =>
    if n < 10 then [digitChar n] else decGo fuel (n / 10) ++ [digitChar (n % 10)]

/-- Decimal rendering of a natural number (Python `str(n)` for `n ≥ 0`). -/
def decChars (n : Nat) : List Char :=
  decGo n n

/-- Python `str` of an `int` (signs included). -/
def pyStrInt (n : Int) : String :=
  if n < 0 then "-" ++ ⟨decChars (-n).toNat⟩ else ⟨decChars n.toNat⟩

/-- Python `"%s" % value` for an `int | None` field. -/
def pyStrOptInt : Option Int → String
  | none => "None"
  | some n => pyStrInt n

/-- Python `"%s" % value` for a `str | None` field. -/
def pyStrOptStr : Option String → String
  | none => "None"
  | some s => s

/-- Zero-padded two-digit rendering (`"%02d"`). -/
def pad2 (n : Nat) : String :=
  if n < 10 then "0" ++ ⟨decChars n⟩ else ⟨decChars n⟩

/-- Month lengths, February depending on the leap flag. -/
def monthLens (leap : Bool) : List Nat :=
  [31, if leap then 29 else 28, 31, 30, 31, 30, 31, 31, 30, 31, 30, 31]

/-- Walk the month-length table turning a zero-based day-of-year into a
one-based `(month, day)` pair. -/
def monthDayAux : List Nat → Nat → Nat → Nat × Nat
  | [], m, doy => (m, doy + 1)
  | len :: rest, m, doy =>
    if doy < len then (m, doy + 1) else monthDayAux rest (m + 1) (doy - len)

/-- Days before (one-based) month `m` in a year with the given leap flag. -/
def cumDays (leap : Bool) (m : Nat) : Nat :=
  ((monthLens leap).take (m - 1)).foldl (· + ·) 0

/-- Leap-year test, valid on 2000–2099 (2000 is a leap year by the 400
rule; no year divisible by 100 other than 2000 lies in the range). -/
def isLeap (y : Nat) : Bool :=
  y % 4 == 0

/-- Seconds of the Unix epoch at 2000-01-01T00:00:00Z
(10957 days of 1970–1999, 7 of them leap). -/
def epoch2000 : Int := 946684800

/-- A broken-down UTC date and time. -/
structure DateTime6 where
  y : Nat
  m : Nat
  d : Nat
  hh : Nat
  mm : Nat
  ss : Nat
deriving DecidableEq, Repr

/-- Break a Unix timestamp in 2000-01-01..2099-12-31 into UTC calendar
fields: 1461-day quadrennia from 2000 (first year of each leap), then the
month table. -/
def epochToDateTime (t : Int) : DateTime6 :=
  let u := (t - epoch2000).toNat
  let days := u / 86400
  let tod := u % 86400
  let q := days / 1461
  let r := days % 1461
  let yin := if r < 366 then 0 else (r - 366) / 365 + 1
  let doy := if r < 366 then r else (r - 366) % 365
  let md := monthDayAux (monthLens (yin == 0)) 1 doy
  ⟨2000 + 4 * q + yin, md.1, md.2, tod / 3600, tod % 3600 / 60, tod % 60⟩

/-- Days from 1970-01-01 to the given date for years 2000–2099, with a
day-of-month beyond the month's length spilling into the following months
exactly as `calendar.timegm` normalizes it. -/
def daysFrom1970 (y m d : Nat) : Nat :=
  10957 + 365 * (y - 2000) + (y - 1997) / 4 + cumDays (isLeap y) (m) + (d - 1)

/-- `calendar.timegm(strptime(text, TIME_FORMAT))` on the parsed fields:
the UTC Unix timestamp of a broken-down time (years 2000–2099). -/
def timegm (y m d hh mm ss : Nat) : Int :=
  Int.ofNat (daysFrom1970 y m d * 86400 + hh * 3600 + mm * 60 + ss)

/-- Modelled from the spec: `display_time` and `TIME_FORMAT` are imported
from `thunter.constants` but missing from `src/thunter/constants.py`.
Per spec §4.1 the helper renders a Unix timestamp as `YYYY-MM-DD HH:MM:SS`;
the repository's own parser test renders `1633036800` as
`2021-09-30 21:20:00`, fixing the rendering to UTC (offset zero), which is
what `calendar.timegm` in the parser inverts. -/
def display_time (t : Int) : String :=
  let d := epochToDateTime t
  ⟨decChars d.y⟩ ++ "-" ++ pad2 d.m ++ "-" ++ pad2 d.d ++ " " ++
    pad2 d.hh ++ ":" ++ pad2 d.mm ++ ":" ++ pad2 d.ss

/-- `"\n".join(lines + [""])`: every line followed by one newline. -/
def joinLines (lines : List String) : String :=
  lines.foldr (fun l acc => l ++ "\n" ++ acc) ""

/-- `display_task(task, task_history)` from `src/thunter/task_parser.py`:
the canonical editable text block, lines joined by `"\n"` with a trailing
newline (`"\n".join(lines + [""])`, i.e. each line followed by `"\n"`). -/
def display_task (task : Task) (task_history : List TaskHistoryRecord) : String :=
  let lines := ["NAME: " ++ task.name,
    "ESTIMATE: " ++ pyStrOptInt task.estimate,
    "STATUS: " ++ task.status.value,
    "DESCRIPTION: " ++ pyStrOptStr task.description,
    "",
    "HISTORY"] ++
    task_history.map (fun r =>
      (if r.is_start then "Start" else "Stop") ++ "\t" ++ display_time r.time)
  joinLines lines

/-!
## The PEG parser of `TaskVisitor`

The `parsimonious` grammar in `src/thunter/task_parser.py` is deterministic
(ordered choice, greedy regexes, no backtracking into a succeeded
sub-expression), so it is compiled rule-by-rule into functions
`List Char → Option (value × rest)`; `none` is a parse failure.  The
visitation callbacks (`visit_*`) compute each rule's value.
-/

/-- The character class of the `word` rule's regex `[0-9a-zA-Z.!?&-_]`:
`!`, the ASCII range `&`–`_` (which contains the digits, the upper-case
letters, and `.`/`?`), and the lower-case letters. -/
def wordChar (c : Char) : Bool :=
  c.toNat == 0x21 || (0x26 ≤ c.toNat && c.toNat ≤ 0x5F) ||
    (0x61 ≤ c.toNat && c.toNat ≤ 0x7A)

/-- The `whitespace` rule's character class `[ \t]`. -/
def blankChar (c : Char) : Bool :=
  c == ' ' || c == '\t'

/-- An exact literal, returning the remaining input. -/
def litP : List Char → List Char → Option (List Char)
  | [], inp => some inp
  | _ :: _, [] => none
  | c :: cs, d :: ds => if c == d then litP cs ds else none

/-- `whitespace?`: optionally consume a greedy run of blanks. -/
def wsOpt (inp : List Char) : List Char :=
  inp.dropWhile blankChar

/-- `whitespace`: a non-empty greedy run of blanks. -/
def wsP (inp : List Char) : Option (List Char) :=
  match inp with
  | c :: rest => if blankChar c then some (rest.dropWhile blankChar) else none
  | [] => none

/-- `newline+`.  `newline = "\n" / "\n\r"`, and the ordered choice means the
second alternative is never reached, so this is a non-empty run of `'\n'`. -/
def nlPlus (inp : List Char) : Option (List Char) :=
  match inp with
  | '\n' :: rest => some (rest.dropWhile (· == '\n'))
  | _ => none

/-- `newline*`. -/
def nlStar (inp : List Char) : List Char :=
  inp.dropWhile (· == '\n')

/-- `word = ~"[0-9a-zA-Z.!?&-_]+"`: a non-empty greedy run, returning the
matched text. -/
def wordP (inp : List Char) : Option (List Char × List Char) :=
  match inp.takeWhile wordChar with
  | [] => none
  | w => some (w, inp.drop w.length)

/-- The `(whitespace word)*` tail of the `phrase` rule: each iteration must
match blanks then a word or consumes nothing; returns the extra matched text
and the rest.  `fuel` bounds the iteration count (each iteration consumes at
least one character, so `inp.length + 1` at the call site never runs out). -/
def phraseLoop (fuel : Nat) (inp : List Char) : List Char × List Char :=
  match fuel with
  | 0 => ([], inp)
  | fuel + 1 =>
    match inp.takeWhile blankChar with
    | [] => ([], inp)
    | b =>
      let rest := inp.drop b.length
      match rest.takeWhile wordChar with
      | [] => ([], inp)
      | w =>
        let p := phraseLoop fuel (rest.drop w.length)
        (b ++ w ++ p.1, p.2)

/-- `phrase = word (whitespace word)*`; its value (`visit_phrase`) is
`node.text`, the whole matched span. -/
def phraseP (inp : List Char) : Option (List Char × List Char) :=
  match wordP inp with
  | none => none
  | some (w, rest) =>
    let p := phraseLoop (rest.length + 1) rest
    some (w ++ p.1, p.2)

/-- `int = ~"[1-9][0-9]*" / "None"`, returning the matched text. -/
def intP (inp : List Char) : Option (List Char × List Char) :=
  match inp with
  | c :: cs =>
    if '1' ≤ c && c ≤ '9' then
      let ds := cs.takeWhile Char.isDigit
      some (c :: ds, cs.drop ds.length)
    else
      match litP "None".data inp with
      | some rest => some ("None".data, rest)
      | none => none
  | [] => none

/-- `status_type = "Current" / "TODO" / "In Progress" / "Finished"`;
`visit_status_type` turns the text into the `Status` member. -/
def statusTypeP (inp : List Char) : Option (Status × List Char) :=
  match litP "Current".data inp with
  | some rest => some (Status.current, rest)
  | none =>
    match litP "TODO".data inp with
    | some rest => some (Status.todo, rest)
    | none =>
      match litP "In Progress".data inp with
      | some rest => some (Status.inProgress, rest)
      | none =>
        match litP "Finished".data inp with
        | some rest => some (Status.finished, rest)
        | none => none

/-- The decimal value of two ASCII digit characters. -/
def twoDigitVal (c d : Char) : Nat :=
  10 * (c.toNat - 48) + (d.toNat - 48)

/-- `year = ~"20[0-9]{2}"`. -/
def yearP : List Char → Option (Nat × List Char)
  | '2' :: '0' :: c :: d :: rest =>
    if c.isDigit && d.isDigit then some (2000 + twoDigitVal c d, rest) else none
  | _ => none

/-- `month = ~"0[1-9]" / ~"1[0-2]"`. -/
def monthP : List Char → Option (Nat × List Char)
  | '0' :: c :: rest => if '1' ≤ c && c ≤ '9' then some (twoDigitVal '0' c, rest) else none
  | '1' :: c :: rest => if '0' ≤ c && c ≤ '2' then some (twoDigitVal '1' c, rest) else none
  | _ => none

/-- `day = ~"0[1-9]" / ~"1[0-9]" / ~"2[0-9]" / ~"3[0-1]"`. -/
def dayP : List Char → Option (Nat × List Char)
  | '0' :: c :: rest => if '1' ≤ c && c ≤ '9' then some (twoDigitVal '0' c, rest) else none
  | '1' :: c :: rest => if c.isDigit then some (twoDigitVal '1' c, rest) else none
  | '2' :: c :: rest => if c.isDigit then some (twoDigitVal '2' c, rest) else none
  | '3' :: c :: rest => if '0' ≤ c && c ≤ '1' then some (twoDigitVal '3' c, rest) else none
  | _ => none

/-- `hours = ~"0[0-9]" / ~"1[0-9]" / ~"2[0-3]"`. -/
def hoursP : List Char → Option (Nat × List Char)
  | '0' :: c :: rest => if c.isDigit then some (twoDigitVal '0' c, rest) else none
  | '1' :: c :: rest => if c.isDigit then some (twoDigitVal '1' c, rest) else none
  | '2' :: c :: rest => if '0' ≤ c && c ≤ '3' then some (twoDigitVal '2' c, rest) else none
  | _ => none

/-- `minutes = ~"[0-5][0-9]"` (and `seconds = minutes`). -/
def minutesP : List Char → Option (Nat × List Char)
  | c :: d :: rest =>
    if ('0' ≤ c && c ≤ '5') && d.isDigit then some (twoDigitVal c d, rest) else none
  | _ => none

/-- `time = year "-" month "-" day " " hours ":" minutes ":" seconds`;
`visit_time` is `calendar.timegm(strptime(node.text, TIME_FORMAT))`. -/
def timeP (inp : List Char) : Option (Int × List Char) := do
  let (y, r1) ← yearP inp
  let r2 ← litP ['-'] r1
  let (mo, r3) ← monthP r2
  let r4 ← litP ['-'] r3
  let (d, r5) ← dayP r4
  let r6 ← litP [' '] r5
  let (hh, r7) ← hoursP r6
  let r8 ← litP [':'] r7
  let (mm, r9) ← minutesP r8
  let r10 ← litP [':'] r9
  let (ss, r11) ← minutesP r10
  pure (timegm y mo d hh mm ss, r11)

/-- `history_record_type = "Start" / "Stop"`; value `node.text == "Start"`. -/
def historyRecordTypeP (inp : List Char) : Option (Bool × List Char) :=
  match litP "Start".data inp with
  | some rest => some (true, rest)
  | none =>
    match litP "Stop".data inp with
    | some rest => some (false, rest)
    | none => none

/-- `history_record = history_record_type whitespace time whitespace?`. -/
def historyRecordP (inp : List Char) : Option ((Bool × Int) × List Char) := do
  let (b, r1) ← historyRecordTypeP inp
  let r2 ← wsP r1
  let (t, r3) ← timeP r2
  pure ((b, t), wsOpt r3)

/-- The `(next_history_record)*` tail: each iteration parses
`newline+ history_record` or consumes nothing.  Each iteration consumes at
least the newline, so `inp.length + 1` fuel at the call site never runs
out. -/
def histRecsLoop (fuel : Nat) (inp : List Char) : List (Bool × Int) × List Char :=
  match fuel with
  | 0 => ([], inp)
  | fuel + 1 =>
    match nlPlus inp with
    | none => ([], inp)
    | some r1 =>
      match historyRecordP r1 with
      | none => ([], inp)
      | some (rec, r2) =>
        let p := histRecsLoop fuel r2
        (rec :: p.1, p.2)

/-- `history = whitespace? "HISTORY" whitespace? newline+ history_records?`
with `history_records = history_record (next_history_record)*`;
`visit_history` yields the record list (empty when absent). -/
def historyP (inp : List Char) : Option (List (Bool × Int) × List Char) := do
  let r1 ← litP "HISTORY".data (wsOpt inp)
  let r2 ← nlPlus (wsOpt r1)
  match historyRecordP r2 with
  | none => pure ([], r2)
  | some (rec, r3) =>
    let p := histRecsLoop (r3.length + 1) r3
    pure (rec :: p.1, p.2)

/-- `name = "NAME:" whitespace? phrase whitespace?`; value the phrase text. -/
def nameP (inp : List Char) : Option (String × List Char) := do
  let r1 ← litP "NAME:".data inp
  let (ph, r2) ← phraseP (wsOpt r1)
  pure (⟨ph⟩, wsOpt r2)

/-- `estimate = "ESTIMATE:" whitespace? int whitespace?`; `visit_estimate`
is `int(text) if text.isdigit() else None`. -/
def estimateP (inp : List Char) : Option (Option Int × List Char) := do
  let r1 ← litP "ESTIMATE:".data inp
  let (txt, r2) ← intP (wsOpt r1)
  let v := if pyIsdigit ⟨txt⟩ then some (digitStrVal ⟨txt⟩) else none
  pure (v, wsOpt r2)

/-- `status = "STATUS:" whitespace? status_type whitespace?`. -/
def statusFieldP (inp : List Char) : Option (Status × List Char) := do
  let r1 ← litP "STATUS:".data inp
  let (st, r2) ← statusTypeP (wsOpt r1)
  pure (st, wsOpt r2)

/-- `description = "DESCRIPTION:" whitespace? phrase whitespace?`;
`visit_description` maps the text `"None"` to `None`. -/
def descriptionP (inp : List Char) : Option (Option String × List Char) := do
  let r1 ← litP "DESCRIPTION:".data inp
  let (ph, r2) ← phraseP (wsOpt r1)
  let v := if (⟨ph⟩ : String) == "None" then none else some (⟨ph⟩ : String)
  pure (v, wsOpt r2)

/-- The `task` rule: `name newline+ estimate newline+ status newline+
description newline+ history newline*`, with `visit_task` assembling the
`ParsedTaskData`. -/
def taskP (inp : List Char) : Option (ParsedTaskData × List Char) := do
  let (nm, r1) ← nameP inp
  let r2 ← nlPlus r1
  let (est, r3) ← estimateP r2
  let r4 ← nlPlus r3
  let (st, r5) ← statusFieldP r4
  let r6 ← nlPlus r5
  let (desc, r7) ← descriptionP r6
  let r8 ← nlPlus r7
  let (hist, r9) ← historyP r8
  pure (⟨nm, est, desc, st, hist.map fun p => ⟨p.1, p.2⟩⟩, nlStar r9)

/-- The ways `TaskVisitor().parse(...)` raises: `parsimonious` raises
`ParseError` when the grammar does not match, `IncompleteParseError` when
the structural parse does not consume the whole input, and wraps any
exception a `visit_*` callback raises (here the validation error) in a
`VisitationError` that carries the original exception. -/
inductive ParseFail where
  | parseFailure
  | incompleteParse
  | visitation (original : String)
deriving DecidableEq, Repr

/-- `parse_task_display(task_display)`: `TaskVisitor().parse(...)`.
`parsimonious` first runs the structural parse, which must consume the
whole input, then the visitation, during which `visit_task` runs
`validate_task_data`; a validation failure surfaces wrapped in a
`VisitationError` holding the original validation message. -/
def parse_task_display (task_display : String) : Except ParseFail ParsedTaskData :=
  match taskP task_display.data with
  | some (d, []) =>
    match validate_task_data d with
    | .ok _ => .ok d
    | .error e => .error (.visitation e)
  | some (_, _ :: _) => .error .incompleteParse
  | none => .error .parseFailure

instance {ε α : Type} [DecidableEq ε] [DecidableEq α] : DecidableEq (Except ε α)
  | .ok a, .ok b =>
    match decEq a b with
    | isTrue h => isTrue (by rw [h])
    | isFalse h => isFalse (by intro hc; cases hc; exact h rfl)
  | .ok _, .error _ => isFalse (by intro hc; cases hc)
  | .error _, .ok _ => isFalse (by intro hc; cases hc)
  | .error a, .error b =>
    match decEq a b with
    | isTrue h => isTrue (by rw [h])
    | isFalse h => isFalse (by intro hc; cases hc; exact h rfl)

/-!
## Specification-side definitions

Predicates and functions written from the specification's wording, used to
state the claims independently of the code-derived definitions above.
-/

/-- The spec's fixed status priority:
`CURRENT < IN_PROGRESS < TODO < FINISHED`. -/
def statusRankSpec : Status → Nat
  | .current => 0
  | .inProgress => 1
  | .todo => 2
  | .finished => 3

/-- "strictly alternate start/stop", carrying the kind expected next. -/
def alternatingFrom (expect : Bool) : List TaskHistoryRecord → Bool
  | [] => true
  | r :: rest => r.is_start == expect && alternatingFrom (!expect) rest

/-- "strictly increasing times". -/
def ascendingTimes : List TaskHistoryRecord → Bool
  | [] => true
  | [_] => true
  | a :: b :: rest => decide (a.time < b.time) && ascendingTimes (b :: rest)

/-- The spec's progress formula: "the sum of `(stopTime - startTime)` over
the closed pairs, plus `(now - lastStartTime)` when the sequence ends with
an unmatched start". -/
def specProgress : List TaskHistoryRecord → Int → Int
  | [], _ => 0
  | [s], nowT => nowT - s.time
  | s :: p :: rest, nowT => (p.time - s.time) + specProgress rest nowT

/-- The closed-pairs part of the progress formula. -/
def closedSum : List TaskHistoryRecord → Int
  | s :: p :: rest => (p.time - s.time) + closedSum rest
  | _ => 0

/-- The time of the unmatched trailing start, when there is one. -/
def lastOpen : List TaskHistoryRecord → Option Int
  | [] => none
  | [s] => some s.time
  | _ :: _ :: rest => lastOpen rest

/-- A string that matches the grammar's `phrase` rule and is reproduced
verbatim by rendering: non-empty, first and last characters in the `word`
class, every character a `word` character or a blank. -/
def goodPhrase (l : List Char) : Bool :=
  (match l.head? with | some c => wordChar c | none => false) &&
    (match l.getLast? with | some c => wordChar c | none => false) &&
    l.all (fun c => wordChar c || blankChar c)

/-- The shape `word (whitespace word)*` seen from the parser's side: a
leading word run followed by alternating blank/word runs. -/
inductive PTail : List Char → Prop
  | nil : PTail []
  | cons (b w rest : List Char) (hbne : b ≠ []) (hb : ∀ c ∈ b, blankChar c = true)
      (hwne : w ≠ []) (hw : ∀ c ∈ w, wordChar c = true) (h : PTail rest) :
      PTail (b ++ w ++ rest)

/-- An operation that is not `create_task` with status `CURRENT`. -/
def noCreateCurrent : Op → Prop
  | .create _ _ _ st => st ≠ Status.current
  | _ => True

/-- The timestamp range renderable in the grammar's `20[0-9]{2}` years:
2000-01-01T00:00:00Z up to 2100-01-01T00:00:00Z. -/
def timeInRange (t : Int) : Prop :=
  epoch2000 ≤ t ∧ t < epoch2000 + 36525 * 86400

/-- The history pairs a task's records parse to. -/
def histPairs (task_history : List TaskHistoryRecord) : List ParsedTaskHistoryRecord :=
  task_history.map fun r => ⟨r.is_start, r.time⟩

/-- The renderability conditions under which the text block produced by
`display_task` is parsed back exactly: grammar-conformant name and
description, a positive (or absent) estimate, history times within the
grammar's year range, and history/status consistency as checked by
`validate_task_data`. -/
def Renderable (task : Task) (task_history : List TaskHistoryRecord) : Prop :=
  goodPhrase task.name.data = true ∧
  (match task.description with
    | none => True
    | some d => goodPhrase d.data = true ∧ d ≠ "None") ∧
  (match task.estimate with
    | none => True
    | some n => 1 ≤ n) ∧
  (∀ r ∈ task_history, timeInRange r.time) ∧
  validate_task_data ⟨task.name, task.estimate, task.description, task.status,
    histPairs task_history⟩ = .ok ()

/-- The first character of the list, if any, fails the predicate. -/
def headNot (p : Char → Bool) : List Char → Prop
  | [] => True
  | c :: _ => p c = false

/-- The rendered history lines (each line followed by its newline). -/
def histLines (recs : List TaskHistoryRecord) : List Char :=
  recs.foldr (fun r acc =>
    ((if r.is_start then "Start" else "Stop") ++ "\t" ++ display_time r.time).data ++
      '\n' :: acc) []

/-!
## Theorems
-/

/-- Induction two list elements at a time. -/
theorem twoStepInduction {α : Type} {motive : List α → Prop} (h0 : motive [])
    (h1 : ∀ a, motive [a]) (h2 : ∀ a b l, motive l → motive (a :: b :: l)) :
    ∀ l, motive l
  | [] => h0
  | [a] => h1 a
  | a :: b :: l => h2 a b l (twoStepInduction h0 h1 h2 l)

/-- On an alternating history starting with a start, the `calc_progress`
loop accumulates the closed-pair sum and ends holding the unmatched
trailing start time, if any. -/
theorem calcLoop_alternating :
    ∀ hist : List TaskHistoryRecord, alternatingFrom true hist = true →
      ∀ p : Int, calcLoop hist p none = some (p + closedSum hist, lastOpen hist) := by
  refine twoStepInduction ?_ ?_ ?_
  · intro _ p
    simp [calcLoop, closedSum, lastOpen]
  · intro a halt p
    simp only [alternatingFrom, Bool.and_eq_true, beq_iff_eq] at halt
    simp [calcLoop, halt.1, closedSum, lastOpen]
  · intro a b l ih halt p
    simp only [alternatingFrom, Bool.and_eq_true, beq_iff_eq, Bool.not_true] at halt
    obtain ⟨ha, hb, hl⟩ := halt
    simp [calcLoop, ha, hb, ih hl, closedSum, lastOpen]
    omega

/-- The spec's progress formula splits into the closed-pair sum plus the
open-interval contribution. -/
theorem specProgress_split :
    ∀ (hist : List TaskHistoryRecord) (nowT : Int),
      specProgress hist nowT =
        closedSum hist + (match lastOpen hist with | some t => nowT - t | none => 0) := by
  intro hist
  induction hist using twoStepInduction with
  | h0 => intro nowT; simp [specProgress, closedSum, lastOpen]
  | h1 a => intro nowT; simp [specProgress, closedSum, lastOpen]
  | h2 a b l ih =>
    intro nowT
    simp only [specProgress, closedSum, lastOpen, ih]
    cases hlo : lastOpen l <;> simp only [hlo] <;> omega

/-- C2, amended.  For every history that strictly alternates start/stop
beginning with a start and has strictly increasing times, `calc_progress`
returns the sum of `(stopTime - startTime)` over the closed pairs plus
`(now - lastStartTime)` for an unmatched trailing start — provided the
trailing start's time is not `0` (Python's truthiness check
`if task_history and start_time` silently drops an open interval that
started at Unix time `0`). -/
theorem C2_calc_progress_amended (hist : List TaskHistoryRecord) (nowT : Int)
    (halt : alternatingFrom true hist = true)
    (hasc : ascendingTimes hist = true)
    (hz : lastOpen hist ≠ some 0) :
    calc_progress hist nowT = some (specProgress hist nowT) := by
  unfold calc_progress
  rw [calcLoop_alternating hist halt 0, specProgress_split hist nowT]
  cases hlo : lastOpen hist with
  | none => simp
  | some t =>
    have h1 : hist.isEmpty = false := by
      cases hist with
      | nil => simp [lastOpen] at hlo
      | cons x xs => rfl
    have h2 : (t == 0) = false := by
      have ht : t ≠ 0 := fun h => hz (by rw [hlo, h])
      simp [ht]
    simp [h1, h2]

/-- C2, counterexample to the claim as stated: the single record
`start@0`, an alternating, strictly increasing history, yields progress
`0` from the code while the claimed formula gives `now - 0 = 30`. -/
theorem C2_calc_progress_cex :
    alternatingFrom true [⟨1, 1, true, 0⟩] = true ∧
      ascendingTimes [⟨1, 1, true, 0⟩] = true ∧
      calc_progress [⟨1, 1, true, 0⟩] 30 = some 0 ∧
      specProgress [⟨1, 1, true, 0⟩] 30 = 30 := by
  decide

/-- C2 witness: the spec's own closed-interval example
`[(1000,1100), (1200,1250)]` evaluates to `150` through the theorem. -/
theorem C2_calc_progress_witness :
    calc_progress [⟨1, 1, true, 1000⟩, ⟨2, 1, false, 1100⟩,
      ⟨3, 1, true, 1200⟩, ⟨4, 1, false, 1250⟩] 9999 = some 150 := by
  have h := C2_calc_progress_amended
    [⟨1, 1, true, 1000⟩, ⟨2, 1, false, 1100⟩, ⟨3, 1, true, 1200⟩, ⟨4, 1, false, 1250⟩]
    9999 (by decide) (by decide) (by decide)
  exact h.trans (by decide)

/-- C4.  Evaluation of `validate_task_data` on the documented shapes.
A TODO task with history, an out-of-order stop, and a well-formed block
behave as claimed; but the non-alternating history `[start@T, start@T]`
(the exact input of the repository's own `test_validate_task_data`, which
expects "History must alternate between Start and Stop") fails the
strict ascending-time check first and raises "History must be in
ascending order by time" instead: the code contradicts its own test. -/
theorem C4_validate_eval :
    validate_task_data ⟨"TODO task with history!", some 3, some "A valid task for testing.",
        Status.todo, [⟨true, 1633036800⟩, ⟨false, 1633037200⟩]⟩ =
      Except.error "[red]Task Validation Error:[/red] Can't have a history if the status is TODO" ∧
    validate_task_data ⟨"Out of order history", some 3, none,
        Status.finished, [⟨true, 1633036805⟩, ⟨false, 1633036800⟩]⟩ =
      Except.error "[red]Task Validation Error:[/red] History must be in ascending order by time" ∧
    validate_task_data ⟨"Well formed", some 4, none,
        Status.inProgress, [⟨true, 1633036800⟩, ⟨false, 1633037200⟩]⟩ = Except.ok () ∧
    validate_task_data ⟨"Stop and Start reversed", some 3, none, Status.finished,
        [⟨true, 1633036800⟩, ⟨true, 1633036800⟩, ⟨false, 1633036800⟩, ⟨false, 1633036800⟩]⟩ =
      Except.error "[red]Task Validation Error:[/red] History must be in ascending order by time" := by
  decide

/-- C9, counterexample to the claim as stated: the ordering does sort an
equal-time start before the stop, but an otherwise well-formed history
containing the equal-time pair `[start@100, stop@100]` is rejected by
`validate_task_data` (strict ascending-time check), not accepted. -/
theorem C9_zero_duration_cex :
    hist_lt ⟨1, 7, true, 100⟩ ⟨2, 7, false, 100⟩ = true ∧
    validate_task_data ⟨"x", some 3, none, Status.inProgress, [⟨true, 100⟩, ⟨false, 100⟩]⟩ =
      Except.error "[red]Task Validation Error:[/red] History must be in ascending order by time" := by
  decide

/-- C9, amended.  The canonical `TaskHistoryRecord` ordering sorts a start
strictly before a stop sharing the same task and time, so a zero-duration
interval is representable in the ordering; but the codec's validation
requires strictly increasing timestamps, so every history containing an
equal-time start/stop pair is rejected with "History must be in ascending
order by time" rather than accepted. -/
theorem C9_zero_duration_amended :
    (∀ r1 r2 : TaskHistoryRecord, r1.taskid = r2.taskid → r1.time = r2.time →
      r1.is_start = true → r2.is_start = false →
      hist_lt r1 r2 = true ∧ hist_lt r2 r1 = false) ∧
    (∀ (nm : String) (est : Option Int) (desc : Option String) (t : Int),
      validate_task_data ⟨nm, est, desc, Status.inProgress, [⟨true, t⟩, ⟨false, t⟩]⟩ =
        Except.error "[red]Task Validation Error:[/red] History must be in ascending order by time") := by
  constructor
  · intro r1 r2 htid ht h1 h2
    simp [hist_lt, htid, ht, h1, h2]
  · intro nm est desc t
    by_cases ht : (0 : Int) < t <;>
      simp [validate_task_data, validateHistLoop, thunter_assert, ht, Bind.bind, Except.bind]

/-- C9 witness: the amended theorem applied to a concrete equal-time pair. -/
theorem C9_zero_duration_witness :
    hist_lt ⟨3, 9, true, 55⟩ ⟨4, 9, false, 55⟩ = true ∧
    validate_task_data ⟨"w", none, none, Status.inProgress, [⟨true, 55⟩, ⟨false, 55⟩]⟩ =
      Except.error "[red]Task Validation Error:[/red] History must be in ascending order by time" :=
  ⟨(C9_zero_duration_amended.1 ⟨3, 9, true, 55⟩ ⟨4, 9, false, 55⟩ rfl rfl rfl rfl).1,
    C9_zero_duration_amended.2 "w" none none 55⟩

/-- A list of length at most one containing `a` is `[a]`. -/
theorem eq_singleton_of_mem_of_length_le_one {α : Type} {l : List α} {a : α}
    (h : a ∈ l) (hl : l.length ≤ 1) : l = [a] := by
  cases l with
  | nil => cases h
  | cons x xs =>
    cases xs with
    | nil => cases h with
      | head => rfl
      | tail _ h => cases h
    | cons y ys => simp at hl

/-- Filtering a duplicate-free task list for the id of a member yields
exactly that member. -/
theorem filter_id_eq_singleton {l : List Task} (hpw : l.Pairwise (fun a b => a.id ≠ b.id))
    {t : Task} (ht : t ∈ l) : l.filter (fun u => u.id == t.id) = [t] := by
  induction l with
  | nil => cases ht
  | cons a l ih =>
    rw [List.pairwise_cons] at hpw
    cases ht with
    | head =>
      have : l.filter (fun u => u.id == t.id) = [] := by
        rw [List.filter_eq_nil_iff]
        intro u hu
        simp [(hpw.1 u hu).symm]
      simp [List.filter_cons, this]
    | tail _ hmem =>
      have hne : a.id ≠ t.id := hpw.1 t hmem
      simp [List.filter_cons, hne, ih hpw.2 hmem]

/-- Over a duplicate-free task list, a filter that forces a fixed id keeps
at most one row. -/
theorem length_filter_le_one_of_id {l : List Task}
    (hpw : l.Pairwise (fun a b => a.id ≠ b.id)) (q : Task → Bool) (n : Int)
    (himp : ∀ u, q u = true → u.id = n) : (l.filter q).length ≤ 1 := by
  induction l with
  | nil => simp
  | cons a l ih =>
    rw [List.pairwise_cons] at hpw
    by_cases hqa : q a = true
    · have : l.filter q = [] := by
        rw [List.filter_eq_nil_iff]
        intro u hu hqu
        exact hpw.1 u hu (by rw [himp a hqa, himp u hqu])
      simp [List.filter_cons, hqa, this]
    · simp only [List.filter_cons, hqa, if_neg]
      simpa using ih hpw.2

/-- `insertOrd` inserts: the result is a permutation of the element consed
onto the list. -/
theorem insertOrd_perm {α : Type} (lt : α → α → Bool) (a : α) :
    ∀ l : List α, (insertOrd lt a l).Perm (a :: l) := by
  intro l
  induction l with
  | nil => simp [insertOrd]
  | cons b bs ih =>
    by_cases h : lt a b = true
    · simp [insertOrd, h]
    · rw [insertOrd, if_neg (by simpa using h)]
      exact (ih.cons b).trans (List.Perm.swap a b bs)

/-- `pySorted` is a permutation of its input. -/
theorem pySorted_perm {α : Type} (lt : α → α → Bool) (l : List α) :
    (pySorted lt l).Perm l := by
  suffices h : ∀ (l acc : List α),
      (l.foldl (fun acc a => insertOrd lt a acc) acc).Perm (acc ++ l) by
    simpa using h l []
  intro l
  induction l with
  | nil => intro acc; simp
  | cons a l ih =>
    intro acc
    exact (ih (insertOrd lt a acc)).trans
      (((insertOrd_perm lt a acc).append_right l).trans List.perm_middle.symm)

/-- Membership is preserved by `insertOrd`. -/
theorem mem_insertOrd {α : Type} {lt : α → α → Bool} {a x : α} {l : List α} :
    x ∈ insertOrd lt a l ↔ x = a ∨ x ∈ l := by
  have := (insertOrd_perm lt a l).mem_iff (a := x)
  simpa using this

/-- Stable insertion keeps a list pairwise-sorted for the non-inversion
relation, given that `lt` is asymmetric and negatively transitive. -/
theorem insertOrd_pairwise {α : Type} {lt : α → α → Bool}
    (hasym : ∀ x y, lt x y = true → lt y x = false)
    (hneg : ∀ x y z, lt y x = false → lt z y = false → lt z x = false)
    {l : List α} (hl : l.Pairwise (fun x y => lt y x = false)) (a : α) :
    (insertOrd lt a l).Pairwise (fun x y => lt y x = false) := by
  induction l with
  | nil => simp [insertOrd]
  | cons b bs ih =>
    rw [List.pairwise_cons] at hl
    by_cases h : lt a b = true
    · rw [insertOrd, if_pos h, List.pairwise_cons]
      refine ⟨?_, List.pairwise_cons.mpr hl⟩
      intro c hc
      cases hc with
      | head => exact hasym a b h
      | tail _ hc => exact hneg a b c (hasym a b h) (hl.1 c hc)
    · rw [insertOrd, if_neg (by simpa using h), List.pairwise_cons]
      refine ⟨?_, ih hl.2⟩
      intro c hc
      rcases mem_insertOrd.mp hc with hca | hcl
      · rw [hca]; simpa using h
      · exact hl.1 c hcl

/-- `pySorted` sorts: no later element compares strictly below an earlier
one, given that `lt` is asymmetric and negatively transitive. -/
theorem pySorted_pairwise {α : Type} {lt : α → α → Bool}
    (hasym : ∀ x y, lt x y = true → lt y x = false)
    (hneg : ∀ x y z, lt y x = false → lt z y = false → lt z x = false)
    (l : List α) : (pySorted lt l).Pairwise (fun x y => lt y x = false) := by
  suffices h : ∀ (l acc : List α), acc.Pairwise (fun x y => lt y x = false) →
      (l.foldl (fun acc a => insertOrd lt a acc) acc).Pairwise (fun x y => lt y x = false) by
    exact h l [] (by simp)
  intro l
  induction l with
  | nil => intro acc hacc; simpa using hacc
  | cons a l ih =>
    intro acc hacc
    exact ih (insertOrd lt a acc) (insertOrd_pairwise hasym hneg hacc a)

/-- A task returned by `get_current_task` is a `CURRENT` row of the store. -/
theorem get_current_task_ok_some {s : Store} {c : Task}
    (h : get_current_task s = .ok (some c)) :
    c ∈ s.tasks ∧ c.status = Status.current := by
  unfold get_current_task at h
  rcases hfc : s.tasks.filter (fun u => u.status == Status.current) with _ | ⟨x, _ | ⟨y, r⟩⟩ <;>
    rw [hfc] at h
  · cases h
  · simp only [Except.ok.injEq, Option.some.injEq] at h
    have hx : x ∈ s.tasks.filter (fun u => u.status == Status.current) := by
      rw [hfc]; exact List.mem_singleton.mpr rfl
    rw [← h]
    refine ⟨List.mem_of_mem_filter hx, ?_⟩
    have := List.of_mem_filter hx
    simpa using this
  · cases h

/-- The unique `CURRENT` row of a store with at most one current task is
what `get_current_task` returns. -/
theorem get_current_task_of_unique {s : Store} {t : Task} (ht : t ∈ s.tasks)
    (hst : t.status = Status.current) (hcc : currentCount s ≤ 1) :
    get_current_task s = .ok (some t) := by
  have htf : t ∈ s.tasks.filter (fun u => u.status == Status.current) := by
    rw [List.mem_filter]
    exact ⟨ht, by simp [hst]⟩
  have := eq_singleton_of_mem_of_length_le_one htf hcc
  unfold get_current_task
  rw [this]

/-- `get_task` on a member task's own (positive) id resolves to that task. -/
theorem get_task_by_id (s : Store) (hwf : WfStore s) (t : Task) (ht : t ∈ s.tasks) :
    get_task s (some (.tid t.id)) none = .ok t := by
  obtain ⟨hpw, hpos⟩ := hwf
  have hid0 : (t.id == 0) = false := by
    have := hpos t ht
    simp only [beq_eq_false_iff_ne, ne_eq]
    omega
  have hf : s.tasks.filter (identMatches (.tid t.id) none) = [t] := by
    have hcongr : ∀ u ∈ s.tasks, identMatches (.tid t.id) none u = (u.id == t.id) := by
      intro u _
      simp [identMatches, statusFilterOK]
    rw [List.filter_congr hcongr]
    exact filter_id_eq_singleton hpw ht
  unfold get_task
  rw [show identOptFalsy (some (.tid t.id)) = false from by simp [identOptFalsy, identFalsy, hid0]]
  simp only [Bool.false_eq_true, if_neg, not_false_iff]
  rw [hf]
  rfl

/-- A task returned by `get_task` is a row of the store. -/
theorem get_task_mem {s : Store} {ident : Option TaskIdentifier}
    {sts : Option (List Status)} {t : Task} (h : get_task s ident sts = .ok t) :
    t ∈ s.tasks := by
  unfold get_task at h
  by_cases hf : identOptFalsy ident = true
  · rw [if_pos hf] at h
    rcases hc : get_current_task s with e | o <;> rw [hc] at h
    · cases h
    · cases o with
      | none => cases h
      | some c =>
        simp only [Except.ok.injEq] at h
        rw [← h]
        exact (get_current_task_ok_some hc).1
  · rw [if_neg hf] at h
    cases ident with
    | none => simp [identOptFalsy] at hf
    | some i =>
      have h' : (match orderByLastModifiedDesc (s.tasks.filter (identMatches i sts)) with
          | [] => Except.error (ThunterError.couldNotFindTask "Could not find task for identifier")
          | [t] => Except.ok t
          | _ => Except.error (ThunterError.foundMultipleTasks "Found multiple tasks for identifier")) =
          Except.ok t := h
      rcases hs : orderByLastModifiedDesc (s.tasks.filter (identMatches i sts)) with _ | ⟨x, _ | ⟨y, r⟩⟩ <;>
        rw [hs] at h'
      · cases h'
      · simp only [Except.ok.injEq] at h'
        rw [← h']
        have hxm : x ∈ orderByLastModifiedDesc (s.tasks.filter (identMatches i sts)) := by
          rw [hs]; exact List.mem_singleton.mpr rfl
        exact List.mem_of_mem_filter ((pySorted_perm _ _).mem_iff.mp hxm)
      · cases h'

/-- C5.  `finish_task` on a `CURRENT` task appends exactly one stop record
with `time = now` and sets the status to `FINISHED` (refreshing
`last_modified`); on an already-`FINISHED` task it changes nothing: no
history record, no status write, the store is returned untouched. -/
theorem C5_finish_task (s : Store) (t : Task) (now : Int)
    (hwf : WfStore s) (ht : t ∈ s.tasks) :
    (t.status = Status.current →
      finish_task s t.id now = .ok
        ⟨s.tasks.map (fun u => if u.id == t.id then
            { u with status := Status.finished, last_modified := now } else u),
          s.history ++ [⟨maxHistId s + 1, t.id, false, now⟩]⟩) ∧
    (t.status = Status.finished → finish_task s t.id now = .ok s) := by
  have hg := get_task_by_id s hwf t ht
  constructor <;> intro hst
  · unfold finish_task
    rw [hg]
    simp [Bind.bind, Except.bind, hst, insert_history, update_task_field_status,
      pure, Except.pure]
  · unfold finish_task
    rw [hg]
    simp [Bind.bind, Except.bind, hst, pure, Except.pure]

/-- C5 witness: finishing the current task of a one-task store through the
theorem, with the resulting store computed. -/
theorem C5_finish_task_witness :
    finish_task ⟨[⟨1, "a", none, none, Status.current, 10⟩], [⟨1, 1, true, 10⟩]⟩ 1 20 =
      .ok ⟨[⟨1, "a", none, none, Status.finished, 20⟩],
        [⟨1, 1, true, 10⟩, ⟨2, 1, false, 20⟩]⟩ := by
  have h := (C5_finish_task ⟨[⟨1, "a", none, none, Status.current, 10⟩], [⟨1, 1, true, 10⟩]⟩
    ⟨1, "a", none, none, Status.current, 10⟩ 20 (by constructor <;> decide) (by decide)).1 rfl
  exact h.trans (by decide)

/-- C6.  `workon_task` with an identifier resolving to the task that is
already `CURRENT` returns the store completely unchanged: no history row
inserted, no status or `last_modified` written for any task. -/
theorem C6_workon_noop (s : Store) (ident : TaskIdentifier) (t : Task) (now : Int)
    (_hwf : WfStore s) (hcc : currentCount s ≤ 1) (ht : t ∈ s.tasks)
    (hst : t.status = Status.current)
    (hres : get_task s (some ident) none = .ok t) :
    workon_task s ident now = .ok s := by
  unfold workon_task
  rw [hres, get_current_task_of_unique ht hst hcc]
  simp [Bind.bind, Except.bind, pure, Except.pure]

/-- C6 witness: working on the already-current task of a two-task store
through the theorem. -/
theorem C6_workon_noop_witness :
    workon_task ⟨[⟨1, "a", none, none, Status.current, 10⟩,
        ⟨2, "b", none, none, Status.todo, 5⟩], [⟨1, 1, true, 10⟩]⟩ (.tid 1) 99 =
      .ok ⟨[⟨1, "a", none, none, Status.current, 10⟩,
        ⟨2, "b", none, none, Status.todo, 5⟩], [⟨1, 1, true, 10⟩]⟩ :=
  C6_workon_noop _ (.tid 1) ⟨1, "a", none, none, Status.current, 10⟩ 99
    (by constructor <;> decide) (by decide) (by decide) rfl (by decide)

/-- `Task.__lt__` is asymmetric. -/
theorem task_lt_asymm (a b : Task) : task_lt a b = true → task_lt b a = false := by
  intro h
  rw [← Bool.not_eq_true]
  simp only [task_lt, Bool.or_eq_true, Bool.and_eq_true, decide_eq_true_eq, beq_iff_eq] at *
  omega

/-- The complement of `Task.__lt__` is transitive. -/
theorem task_lt_negtrans (x y z : Task) :
    task_lt y x = false → task_lt z y = false → task_lt z x = false := by
  intro h1 h2
  rw [← Bool.not_eq_true] at *
  simp only [task_lt, Bool.or_eq_true, Bool.and_eq_true, decide_eq_true_eq, beq_iff_eq] at *
  omega

/-- `STATUS_ORDERING.index` realizes the spec's fixed status priority. -/
theorem statusIndex_eq_rank (st : Status) : statusIndex st = statusRankSpec st := by
  cases st <;> decide

/-- The unfiltered `get_tasks` is `sorted` over the whole `tasks` table. -/
theorem get_tasks_no_filter (s : Store) :
    get_tasks s none none none = pySorted task_lt s.tasks := by
  show pySorted task_lt
      (s.tasks.filter fun t => true && (true && statusFilterOK none t)) =
    pySorted task_lt s.tasks
  congr 1
  have h : ∀ t ∈ s.tasks,
      (true && (true && statusFilterOK none t)) = (fun _ => true) t := by
    intro t _
    rfl
  calc s.tasks.filter (fun t => true && (true && statusFilterOK none t)) =
        s.tasks.filter (fun _ => true) := List.filter_congr h
    _ = s.tasks := List.filter_true s.tasks

/-- C8.  `get_tasks` returns all stored tasks as a permutation sorted
ascending by `(statusRank, -last_modified)` with the fixed priority
`CURRENT < IN_PROGRESS < TODO < FINISHED`: tasks of equal status appear
most-recently-modified first. -/
theorem C8_get_tasks_sorted (s : Store) :
    (get_tasks s none none none).Perm s.tasks ∧
    (get_tasks s none none none).Pairwise (fun a b =>
      statusRankSpec a.status < statusRankSpec b.status ∨
        (statusRankSpec a.status = statusRankSpec b.status ∧
          b.last_modified ≤ a.last_modified)) := by
  rw [get_tasks_no_filter]
  refine ⟨pySorted_perm task_lt s.tasks, ?_⟩
  refine (pySorted_pairwise task_lt_asymm task_lt_negtrans s.tasks).imp ?_
  intro a b hab
  rw [← Bool.not_eq_true] at hab
  simp only [task_lt, Bool.or_eq_true, Bool.and_eq_true, decide_eq_true_eq,
    beq_iff_eq] at hab
  push_neg at hab
  rw [statusIndex_eq_rank, statusIndex_eq_rank] at hab
  omega

/-- `get_task` on a falsy identifier reduces to the current-task branch. -/
theorem get_task_falsy_eq (s : Store) (ident : Option TaskIdentifier)
    (sts : Option (List Status)) (hf : identOptFalsy ident = true) :
    get_task s ident sts =
      (match get_current_task s with
        | .error e => .error e
        | .ok none => .error (.couldNotFindTask "No Current task found.")
        | .ok (some t) => .ok t) := by
  unfold get_task
  rw [hf, if_pos rfl]

/-- `get_task` on a truthy identifier reduces to the filtered lookup. -/
theorem get_task_lookup_eq (s : Store) (i : TaskIdentifier)
    (sts : Option (List Status)) (hfi : identFalsy i = false) :
    get_task s (some i) sts =
      (match orderByLastModifiedDesc (s.tasks.filter (identMatches i sts)) with
        | [] => .error (.couldNotFindTask "Could not find task for identifier")
        | [t] => .ok t
        | _ => .error (.foundMultipleTasks "Found multiple tasks for identifier")) := by
  unfold get_task
  rw [show identOptFalsy (some i) = false from hfi, if_neg (by simp)]

/-- C7, counterexample to the claim as stated: the name lookup is SQLite
`LIKE`, which is case-insensitive on ASCII, not case-sensitive.  In a store
whose only task is named `"Apple"`, the identifier `"a"` is not a
case-sensitive prefix of any row (the claim would demand `TaskNotFound`),
yet `get_task` returns the `"Apple"` task. -/
theorem C7_get_task_cex :
    ("a".data.isPrefixOf "Apple".data = false) ∧
    get_task ⟨[⟨1, "Apple", none, none, Status.todo, 5⟩], []⟩ (some (.tname "a")) none =
      .ok ⟨1, "Apple", none, none, Status.todo, 5⟩ := by
  decide

/-- C7, amended.  Under a well-formed store with at most one `CURRENT`
task: a falsy identifier (omitted, the empty string, or the integer `0`)
resolves to the unique current task and fails with `TaskNotFound` exactly
when there is none; any truthy identifier is resolved against the rows
matching `identMatches` — an exact id equality for integers and digit
strings (never a name match), and otherwise the SQLite-`LIKE`
case-insensitive pattern `identifier + "%"` against the name — ANDed with
the optional status filter; zero matching rows fail with `TaskNotFound`,
more than one with `MultipleTasksFound`, and a unique row is returned.
Id-based lookups can never yield `MultipleTasksFound` because rowids are
unique. -/
theorem C7_get_task_amended (s : Store) (sts : Option (List Status))
    (hwf : WfStore s) (hcc : currentCount s ≤ 1) :
    (∀ ident : Option TaskIdentifier, identOptFalsy ident = true →
      ((get_task s ident sts = .error (.couldNotFindTask "No Current task found.") ↔
          currentCount s = 0) ∧
       (∀ t, get_task s ident sts = .ok t ↔ (t ∈ s.tasks ∧ t.status = Status.current)))) ∧
    (∀ i : TaskIdentifier, identFalsy i = false →
      ((get_task s (some i) sts =
          .error (.couldNotFindTask "Could not find task for identifier") ↔
            s.tasks.filter (identMatches i sts) = []) ∧
       (get_task s (some i) sts =
          .error (.foundMultipleTasks "Found multiple tasks for identifier") ↔
            1 < (s.tasks.filter (identMatches i sts)).length) ∧
       (∀ t, get_task s (some i) sts = .ok t ↔
          s.tasks.filter (identMatches i sts) = [t]))) ∧
    (∀ n : Int, (s.tasks.filter (identMatches (.tid n) sts)).length ≤ 1) ∧
    (∀ d : String, pyIsdigit d = true →
      (s.tasks.filter (identMatches (.tname d) sts)).length ≤ 1) := by
  obtain ⟨hpw, hpos⟩ := hwf
  refine ⟨?_, ?_, ?_, ?_⟩
  · intro ident hf
    rw [get_task_falsy_eq s ident sts hf]
    unfold get_current_task
    rcases hfc : s.tasks.filter (fun u => u.status == Status.current) with _ | ⟨c, _ | ⟨d, r⟩⟩ <;>
      rw [hfc]
    · refine ⟨by simp [currentCount, hfc], ?_⟩
      intro t
      simp only [reduceCtorEq, false_iff, not_and]
      intro htm hts
      have : t ∈ s.tasks.filter (fun u => u.status == Status.current) := by
        rw [List.mem_filter]
        exact ⟨htm, by simp [hts]⟩
      rw [hfc] at this
      cases this
    · have hcm : c ∈ s.tasks.filter (fun u => u.status == Status.current) := by
        rw [hfc]
        exact List.mem_singleton.mpr rfl
      refine ⟨by simp [currentCount, hfc], ?_⟩
      intro t
      simp only [Except.ok.injEq]
      constructor
      · intro h
        rw [← h]
        exact ⟨List.mem_of_mem_filter hcm, by simpa using List.of_mem_filter hcm⟩
      · intro ⟨htm, hts⟩
        have : t ∈ s.tasks.filter (fun u => u.status == Status.current) := by
          rw [List.mem_filter]
          exact ⟨htm, by simp [hts]⟩
        rw [hfc] at this
        rcases this with _ | ⟨_, h⟩
        · rfl
        · cases h
    · exfalso
      rw [show currentCount s =
        (s.tasks.filter (fun u => u.status == Status.current)).length from rfl, hfc] at hcc
      simp at hcc
  · intro i hfi
    rw [get_task_lookup_eq s i sts hfi]
    have hperm := pySorted_perm (fun a b => decide (b.last_modified < a.last_modified))
      (s.tasks.filter (identMatches i sts))
    rcases hS : orderByLastModifiedDesc (s.tasks.filter (identMatches i sts)) with _ | ⟨x, _ | ⟨y, r⟩⟩ <;>
      rw [show orderByLastModifiedDesc (s.tasks.filter (identMatches i sts)) =
        pySorted (fun a b => decide (b.last_modified < a.last_modified))
          (s.tasks.filter (identMatches i sts)) from rfl] at hS <;>
      rw [hS] at hperm
    · have hM : s.tasks.filter (identMatches i sts) = [] := hperm.symm.eq_nil
      refine ⟨by simp [hM], by simp [hM], ?_⟩
      intro t
      simp [hM]
    · have hx : x ∈ s.tasks.filter (identMatches i sts) := hperm.mem_iff.mp (by simp)
      have hM : s.tasks.filter (identMatches i sts) = [x] :=
        eq_singleton_of_mem_of_length_le_one hx (by rw [← hperm.length_eq]; simp)
      refine ⟨by simp [hM], by simp [hM], ?_⟩
      intro t
      rw [hM]
      simp [eq_comm]
    · have hlen : 2 ≤ (s.tasks.filter (identMatches i sts)).length := by
        rw [← hperm.length_eq]
        simp
      refine ⟨?_, ⟨fun _ => by omega, fun _ => rfl⟩, ?_⟩
      · simp only [Except.error.injEq, reduceCtorEq, false_iff]
        intro h
        rw [h] at hlen
        simp at hlen
      · intro t
        simp only [reduceCtorEq, false_iff]
        intro h
        rw [h] at hlen
        simp at hlen
  · intro n
    refine length_filter_le_one_of_id hpw _ n ?_
    intro u hu
    simp only [identMatches, Bool.and_eq_true, beq_iff_eq] at hu
    exact hu.1
  · intro d hd
    refine length_filter_le_one_of_id hpw _ (digitStrVal d) ?_
    intro u hu
    simp only [identMatches, hd, if_pos, Bool.and_eq_true, beq_iff_eq] at hu
    exact hu.1

/-- C7 witness: in a store with tasks `"Alpha"` and `"alpine"`, the
identifier `"AL"` LIKE-matches both rows, so the theorem classifies the
outcome as `MultipleTasksFound`. -/
theorem C7_get_task_witness :
    get_task ⟨[⟨1, "Alpha", none, none, Status.todo, 5⟩,
        ⟨2, "alpine", none, none, Status.todo, 6⟩], []⟩ (some (.tname "AL")) none =
      .error (.foundMultipleTasks "Found multiple tasks for identifier") :=
  ((C7_get_task_amended ⟨[⟨1, "Alpha", none, none, Status.todo, 5⟩,
      ⟨2, "alpine", none, none, Status.todo, 6⟩], []⟩ none
    (by constructor <;> decide) (by decide)).2.1 (.tname "AL")
    (by decide)).2.1.mpr (by decide)

/-- Seeding value bound for the running maximum over task ids. -/
theorem le_foldl_max_id : ∀ (l : List Task) (m : Int), m ≤ l.foldl (fun a t => max a t.id) m := by
  intro l
  induction l with
  | nil => intro m; exact le_refl m
  | cons t l ih =>
    intro m
    exact le_trans (le_max_left m t.id) (ih (max m t.id))

/-- Every member's id is bounded by the running maximum. -/
theorem mem_le_foldl_max_id :
    ∀ (l : List Task) (t : Task), t ∈ l → ∀ m : Int, t.id ≤ l.foldl (fun a t => max a t.id) m := by
  intro l
  induction l with
  | nil => intro t ht; cases ht
  | cons x l ih =>
    intro t ht m
    cases ht with
    | head => exact le_trans (le_max_right m _) (le_foldl_max_id l _)
    | tail _ h => exact ih t h (max m x.id)

/-- Member ids never exceed `maxTaskId`. -/
theorem id_le_maxTaskId {s : Store} {t : Task} (ht : t ∈ s.tasks) : t.id ≤ maxTaskId s :=
  mem_le_foldl_max_id s.tasks t ht 0

/-- `maxTaskId` is non-negative. -/
theorem maxTaskId_nonneg (s : Store) : 0 ≤ maxTaskId s :=
  le_foldl_max_id s.tasks 0

/-- When `get_current_task` reports no current task, the current filter is
empty. -/
theorem gct_none {s : Store} (h : get_current_task s = .ok none) :
    s.tasks.filter (fun u => u.status == Status.current) = [] := by
  unfold get_current_task at h
  rcases hfc : s.tasks.filter (fun u => u.status == Status.current) with _ | ⟨x, _ | ⟨y, r⟩⟩ <;>
    rw [hfc] at h
  · exact hfc
  · cases h
  · cases h

/-- When `get_current_task` returns a task, the current filter is exactly
that singleton. -/
theorem gct_some {s : Store} {c : Task} (h : get_current_task s = .ok (some c)) :
    s.tasks.filter (fun u => u.status == Status.current) = [c] := by
  unfold get_current_task at h
  rcases hfc : s.tasks.filter (fun u => u.status == Status.current) with _ | ⟨x, _ | ⟨y, r⟩⟩ <;>
    rw [hfc] at h
  · cases h
  · simp only [Except.ok.injEq, Option.some.injEq] at h
    rw [hfc, h]
  · cases h

/-- Two rows of a duplicate-free task list sharing an id are equal. -/
theorem eq_of_mem_of_id_eq {l : List Task} (hpw : l.Pairwise (fun a b => a.id ≠ b.id))
    {u v : Task} (hu : u ∈ l) (hv : v ∈ l) (h : u.id = v.id) : u = v := by
  have hs := filter_id_eq_singleton hpw hv
  have : u ∈ l.filter (fun w => w.id == v.id) := by
    rw [List.mem_filter]
    exact ⟨hu, by simp [h]⟩
  rw [hs] at this
  exact List.mem_singleton.mp this

/-- Counting current tasks after a task-table map. -/
theorem currentCount_map (s : Store) (f : Task → Task) (hist : List TaskHistoryRecord) :
    currentCount ⟨s.tasks.map f, hist⟩ =
      (s.tasks.filter (fun u => (f u).status == Status.current)).length := by
  unfold currentCount
  rw [← List.countP_eq_length_filter, ← List.countP_eq_length_filter, List.countP_map]
  rfl

/-- A task-table map that preserves ids preserves store well-formedness. -/
theorem WfStore_map (s : Store) (f : Task → Task) (hist : List TaskHistoryRecord)
    (hid : ∀ u, (f u).id = u.id) (hwf : WfStore s) : WfStore ⟨s.tasks.map f, hist⟩ := by
  obtain ⟨hpw, hpos⟩ := hwf
  constructor
  · rw [List.pairwise_map]
    refine hpw.imp ?_
    intro a b hab
    simpa [hid] using hab
  · intro u hu
    rcases List.mem_map.mp hu with ⟨v, hv, rfl⟩
    rw [hid v]
    exact hpos v hv

/-- The status/`last_modified` update of `update_task_field_status`
preserves the id. -/
theorem update_field_id (tid : Int) (st : Status) (now : Int) (u : Task) :
    ((if u.id == tid then { u with status := st, last_modified := now } else u) : Task).id
      = u.id := by
  by_cases h : (u.id == tid) = true <;> simp [h]

/-- A double status update preserves the id. -/
theorem update2_id (tid cid : Int) (st1 st2 : Status) (now : Int) (u : Task) :
    ((if u.id == tid then { u with status := st1, last_modified := now }
      else if u.id == cid then { u with status := st2, last_modified := now }
      else u) : Task).id = u.id := by
  by_cases h1 : (u.id == tid) = true
  · simp [h1]
  · by_cases h2 : (u.id == cid) = true <;> simp [h1, h2]

/-- `currentCount` depends only on the task table. -/
theorem currentCount_congr {s1 s2 : Store} (h : s1.tasks = s2.tasks) :
    currentCount s1 = currentCount s2 := by
  unfold currentCount
  rw [h]

/-- `WfStore` depends only on the task table. -/
theorem WfStore_tasks_eq {s1 s2 : Store} (h : s1.tasks = s2.tasks) (hw : WfStore s2) :
    WfStore s1 := by
  unfold WfStore at *
  rw [h]
  exact hw

/-- Counting current tasks in a store whose task table is a mapped copy. -/
theorem currentCount_eq_of_tasks_map {s' : Store} (s : Store) (f : Task → Task)
    (h : s'.tasks = s.tasks.map f) :
    currentCount s' = (s.tasks.filter (fun u => (f u).status == Status.current)).length := by
  unfold currentCount
  rw [h, ← List.countP_eq_length_filter, ← List.countP_eq_length_filter, List.countP_map]
  rfl

/-- Well-formedness of a store whose task table is an id-preserving mapped
copy. -/
theorem WfStore_of_tasks_map {s' : Store} (s : Store) (f : Task → Task)
    (h : s'.tasks = s.tasks.map f) (hid : ∀ u, (f u).id = u.id) (hwf : WfStore s) :
    WfStore s' := by
  exact WfStore_tasks_eq h (WfStore_map s f [] hid hwf)

/-- On a well-formed store with at most one current task, a successful
`workon_task` leaves exactly one `CURRENT` task, keeps the store
well-formed, and has moved a previously current task to `IN_PROGRESS`
unless it was itself the target. -/
theorem workon_inv {s : Store} {ident : TaskIdentifier} {now : Int} {s' : Store}
    (hwf : WfStore s) (_hcc : currentCount s ≤ 1)
    (h : workon_task s ident now = .ok s') :
    WfStore s' ∧ currentCount s' = 1 ∧
      (∀ c ∈ s.tasks, c.status = Status.current → ∀ u ∈ s'.tasks, u.id = c.id →
        u.status = Status.current ∨ u.status = Status.inProgress) := by
  obtain ⟨hpw, hpos⟩ := hwf
  unfold workon_task at h
  cases hg : get_task s (some ident) none with
  | error e => rw [hg] at h; simp [Bind.bind, Except.bind] at h
  | ok task =>
    rw [hg] at h
    have htask : task ∈ s.tasks := get_task_mem hg
    cases hc : get_current_task s with
    | error e => rw [hc] at h; simp [Bind.bind, Except.bind] at h
    | ok o =>
      rw [hc] at h
      cases o with
      | none =>
        have hfil := gct_none hc
        have hnone : ∀ u ∈ s.tasks, u.status ≠ Status.current := by
          intro u hu hcur
          have : u ∈ s.tasks.filter (fun v => v.status == Status.current) := by
            rw [List.mem_filter]
            exact ⟨hu, by simp [hcur]⟩
          rw [hfil] at this
          cases this
        have h2 : Except.ok (update_task_field_status (insert_history s task.id true now)
            task.id Status.current now) = Except.ok s' := h
        injection h2 with h3
        subst h3
        have htasks : (update_task_field_status (insert_history s task.id true now)
            task.id Status.current now).tasks =
          s.tasks.map (fun u => if u.id == task.id then
            { u with status := Status.current, last_modified := now } else u) := rfl
        refine ⟨WfStore_of_tasks_map s _ htasks
          (update_field_id task.id Status.current now) ⟨hpw, hpos⟩, ?_, ?_⟩
        · rw [currentCount_eq_of_tasks_map s _ htasks]
          have hcg : ∀ u ∈ s.tasks,
              (((if u.id == task.id then
                { u with status := Status.current, last_modified := now } else u) : Task).status ==
                  Status.current) = (u.id == task.id) := by
            intro u hu
            by_cases hi : (u.id == task.id) = true
            · simp [hi]
            · simp only [hi, Bool.false_eq_true, if_neg, not_false_iff]
              simpa using hnone u hu
          rw [List.filter_congr hcg, filter_id_eq_singleton hpw htask]
          rfl
        · intro c hcm hccur
          exact absurd hccur (hnone c hcm)
      | some c =>
        have hfil := gct_some hc
        have hcmem : c ∈ s.tasks :=
          List.mem_of_mem_filter (by rw [hfil]; exact List.mem_singleton.mpr rfl)
        have hccur : c.status = Status.current := by
          have := List.of_mem_filter
            (show c ∈ s.tasks.filter (fun u => u.status == Status.current) by
              rw [hfil]; exact List.mem_singleton.mpr rfl)
          simpa using this
        have huniq : ∀ u ∈ s.tasks, u.status = Status.current → u = c := by
          intro u hu hcur
          have : u ∈ s.tasks.filter (fun v => v.status == Status.current) := by
            rw [List.mem_filter]
            exact ⟨hu, by simp [hcur]⟩
          rw [hfil] at this
          exact List.mem_singleton.mp this
        have h2 : (if (c.id == task.id) = true then (Except.ok s : Except ThunterError Store)
            else Except.ok (update_task_field_status
              (insert_history (update_task_field_status (insert_history s c.id false now)
                c.id Status.inProgress now) task.id true now) task.id Status.current now)) =
            Except.ok s' := h
        by_cases hid : (c.id == task.id) = true
        · rw [if_pos hid] at h2
          injection h2 with h3
          subst h3
          refine ⟨⟨hpw, hpos⟩, ?_, ?_⟩
          · rw [show currentCount s =
              (s.tasks.filter (fun u => u.status == Status.current)).length from rfl, hfil]
            rfl
          · intro c' hc'm hc'cur u hu huid
            left
            have hc'c : c' = c := huniq c' hc'm hc'cur
            have hu' : u = c' := eq_of_mem_of_id_eq hpw hu hc'm huid
            rw [hu', hc'c]
            exact hccur
        · rw [if_neg hid] at h2
          injection h2 with h3
          subst h3
          have hcne : c.id ≠ task.id := by simpa using hid
          have hcompose : ∀ u : Task,
              ((fun u : Task => if u.id == task.id then
                  { u with status := Status.current, last_modified := now } else u)
                ((fun u : Task => if u.id == c.id then
                  { u with status := Status.inProgress, last_modified := now } else u) u)) =
              (if u.id == task.id then
                  { u with status := Status.current, last_modified := now }
                else if u.id == c.id then
                  { u with status := Status.inProgress, last_modified := now } else u) := by
            intro u
            by_cases h1 : (u.id == c.id) = true
            · have hu : u.id = c.id := by simpa using h1
              have h2' : (u.id == task.id) = false := by
                rw [hu]
                simpa using hcne
              simp [h1, h2']
            · by_cases h2' : (u.id == task.id) = true <;> simp [h1, h2']
          have htasks : (update_task_field_status
              (insert_history (update_task_field_status (insert_history s c.id false now)
                c.id Status.inProgress now) task.id true now) task.id Status.current now).tasks =
              s.tasks.map (fun u =>
                if u.id == task.id then
                  { u with status := Status.current, last_modified := now }
                else if u.id == c.id then
                  { u with status := Status.inProgress, last_modified := now } else u) := by
            show ((s.tasks.map fun u => if u.id == c.id then
                { u with status := Status.inProgress, last_modified := now } else u).map
              fun u => if u.id == task.id then
                { u with status := Status.current, last_modified := now } else u) = _
            rw [List.map_map]
            refine List.map_congr_left ?_
            intro u _
            exact hcompose u
          refine ⟨WfStore_of_tasks_map s _ htasks
            (fun u => update2_id task.id c.id Status.current Status.inProgress now u)
            ⟨hpw, hpos⟩, ?_, ?_⟩
          · rw [currentCount_eq_of_tasks_map s _ htasks]
            have hcg : ∀ u ∈ s.tasks,
                (((if u.id == task.id then
                    { u with status := Status.current, last_modified := now }
                  else if u.id == c.id then
                    { u with status := Status.inProgress, last_modified := now } else u) :
                      Task).status == Status.current) = (u.id == task.id) := by
              intro u hu
              by_cases h1 : (u.id == task.id) = true
              · simp [h1]
              · by_cases h2' : (u.id == c.id) = true
                · simp [h1, h2']
                · have hne2 : u.status ≠ Status.current := by
                    intro hcur
                    have := huniq u hu hcur
                    rw [this] at h2'
                    simp at h2'
                  simp only [h1, h2', Bool.false_eq_true, if_neg, not_false_iff]
                  simpa using hne2
            rw [List.filter_congr hcg, filter_id_eq_singleton hpw htask]
            rfl
          · intro c' hc'm hc'cur u hu huid
            have hc'c : c' = c := huniq c' hc'm hc'cur
            rw [htasks] at hu
            rcases List.mem_map.mp hu with ⟨v, hv, rfl⟩
            rw [update2_id] at huid
            rw [hc'c] at huid
            have hv2 : (v.id == task.id) = false := by
              rw [huid]
              simpa using hcne
            have hv1 : (v.id == c.id) = true := by simpa using huid
            right
            simp [hv2, hv1]

/-- The row-level effect of a successful `workon_task` resolving to target
`t`: every row carrying the target's id ends `CURRENT`, and every
previously current task distinct from the target ends `IN_PROGRESS`. -/
theorem workon_effect {s : Store} {ident : TaskIdentifier} {now : Int} {s' : Store}
    {t : Task} (hwf : WfStore s) (_hcc : currentCount s ≤ 1)
    (hres : get_task s (some ident) none = .ok t)
    (h : workon_task s ident now = .ok s') :
    (∀ u ∈ s'.tasks, u.id = t.id → u.status = Status.current) ∧
    (∀ c ∈ s.tasks, c.status = Status.current → c.id ≠ t.id →
      ∀ u ∈ s'.tasks, u.id = c.id → u.status = Status.inProgress) := by
  obtain ⟨hpw, hpos⟩ := hwf
  unfold workon_task at h
  rw [hres] at h
  cases hc : get_current_task s with
  | error e => rw [hc] at h; simp [Bind.bind, Except.bind] at h
  | ok o =>
    rw [hc] at h
    cases o with
    | none =>
      have h2 : Except.ok (update_task_field_status (insert_history s t.id true now)
          t.id Status.current now) = Except.ok s' := h
      injection h2 with h3
      subst h3
      have htasks : (update_task_field_status (insert_history s t.id true now)
          t.id Status.current now).tasks =
        s.tasks.map (fun u => if u.id == t.id then
          { u with status := Status.current, last_modified := now } else u) := rfl
      refine ⟨?_, ?_⟩
      · intro u hu huid
        rw [htasks] at hu
        rcases List.mem_map.mp hu with ⟨v, hv, rfl⟩
        by_cases hvt : (v.id == t.id) = true
        · simp [hvt]
        · exfalso
          rw [update_field_id t.id Status.current now v] at huid
          rw [huid] at hvt
          simp at hvt
      · intro c hcm hccur _hcne u _hu _huid
        have hfil := gct_none hc
        have hcmem : c ∈ s.tasks.filter (fun v => v.status == Status.current) := by
          rw [List.mem_filter]
          exact ⟨hcm, by simp [hccur]⟩
        rw [hfil] at hcmem
        cases hcmem
    | some c0 =>
      have hfil := gct_some hc
      have hcmem : c0 ∈ s.tasks :=
        List.mem_of_mem_filter (by rw [hfil]; exact List.mem_singleton.mpr rfl)
      have hc0cur : c0.status = Status.current := by
        have := List.of_mem_filter
          (show c0 ∈ s.tasks.filter (fun u => u.status == Status.current) by
            rw [hfil]; exact List.mem_singleton.mpr rfl)
        simpa using this
      have huniq : ∀ u ∈ s.tasks, u.status = Status.current → u = c0 := by
        intro u hu hcur
        have : u ∈ s.tasks.filter (fun v => v.status == Status.current) := by
          rw [List.mem_filter]
          exact ⟨hu, by simp [hcur]⟩
        rw [hfil] at this
        exact List.mem_singleton.mp this
      have h2 : (if (c0.id == t.id) = true then (Except.ok s : Except ThunterError Store)
          else Except.ok (update_task_field_status
            (insert_history (update_task_field_status (insert_history s c0.id false now)
              c0.id Status.inProgress now) t.id true now) t.id Status.current now)) =
          Except.ok s' := h
      by_cases hid : (c0.id == t.id) = true
      · rw [if_pos hid] at h2
        injection h2 with h3
        subst h3
        have hc0t : c0.id = t.id := by simpa using hid
        refine ⟨?_, ?_⟩
        · intro u hu huid
          have hueq : u = c0 := eq_of_mem_of_id_eq hpw hu hcmem (by rw [huid, hc0t])
          rw [hueq]
          exact hc0cur
        · intro c hcm hccur hcne u _hu _huid
          exfalso
          have hcc0 : c = c0 := huniq c hcm hccur
          apply hcne
          rw [hcc0, hc0t]
      · rw [if_neg hid] at h2
        injection h2 with h3
        subst h3
        have hcne0 : c0.id ≠ t.id := by simpa using hid
        have hcompose : ∀ u : Task,
            ((fun u : Task => if u.id == t.id then
                { u with status := Status.current, last_modified := now } else u)
              ((fun u : Task => if u.id == c0.id then
                { u with status := Status.inProgress, last_modified := now } else u) u)) =
            (if u.id == t.id then
                { u with status := Status.current, last_modified := now }
              else if u.id == c0.id then
                { u with status := Status.inProgress, last_modified := now } else u) := by
          intro u
          by_cases h1 : (u.id == c0.id) = true
          · have hu : u.id = c0.id := by simpa using h1
            have h2' : (u.id == t.id) = false := by
              rw [hu]
              simpa using hcne0
            simp [h1, h2']
          · by_cases h2' : (u.id == t.id) = true <;> simp [h1, h2']
        have htasks : (update_task_field_status
            (insert_history (update_task_field_status (insert_history s c0.id false now)
              c0.id Status.inProgress now) t.id true now) t.id Status.current now).tasks =
            s.tasks.map (fun u =>
              if u.id == t.id then
                { u with status := Status.current, last_modified := now }
              else if u.id == c0.id then
                { u with status := Status.inProgress, last_modified := now } else u) := by
          show ((s.tasks.map fun u => if u.id == c0.id then
              { u with status := Status.inProgress, last_modified := now } else u).map
            fun u => if u.id == t.id then
              { u with status := Status.current, last_modified := now } else u) = _
          rw [List.map_map]
          refine List.map_congr_left ?_
          intro u _
          exact hcompose u
        refine ⟨?_, ?_⟩
        · intro u hu huid
          rw [htasks] at hu
          rcases List.mem_map.mp hu with ⟨v, hv, rfl⟩
          rw [update2_id t.id c0.id Status.current Status.inProgress now v] at huid
          have hvt : (v.id == t.id) = true := by simpa using huid
          simp [hvt]
        · intro c hcm hccur hcne u hu huid
          have hcc0 : c = c0 := huniq c hcm hccur
          rw [htasks] at hu
          rcases List.mem_map.mp hu with ⟨v, hv, rfl⟩
          rw [update2_id t.id c0.id Status.current Status.inProgress now v, hcc0] at huid
          have hvc : (v.id == c0.id) = true := by simpa using huid
          have hvt : (v.id == t.id) = false := by
            rw [huid]
            simpa using hcne0
          simp [hvt, hvc]

/-- A successful `stop_current_task` leaves no `CURRENT` task (when one was
stopped) or the store untouched (when none existed), and keeps the store
well-formed with at most one current task. -/
theorem stop_inv {s : Store} {now : Int} {s' : Store} {r : Option Task}
    (hwf : WfStore s) (hcc : currentCount s ≤ 1)
    (h : stop_current_task s now = .ok (s', r)) :
    WfStore s' ∧ currentCount s' ≤ 1 := by
  obtain ⟨hpw, hpos⟩ := hwf
  unfold stop_current_task at h
  cases hc : get_current_task s with
  | error e => rw [hc] at h; simp [Bind.bind, Except.bind] at h
  | ok o =>
    rw [hc] at h
    cases o with
    | none =>
      have h2 : Except.ok ((s, none) : Store × Option Task) = Except.ok (s', r) := h
      injection h2 with h3
      have hs : s = s' := congrArg Prod.fst h3
      rw [← hs]
      exact ⟨⟨hpw, hpos⟩, hcc⟩
    | some c =>
      have hfil := gct_some hc
      have huniq : ∀ u ∈ s.tasks, u.status = Status.current → u = c := by
        intro u hu hcur
        have : u ∈ s.tasks.filter (fun v => v.status == Status.current) := by
          rw [List.mem_filter]
          exact ⟨hu, by simp [hcur]⟩
        rw [hfil] at this
        exact List.mem_singleton.mp this
      have h2 : (match get_task (update_task_field_status (insert_history s c.id false now)
            c.id Status.inProgress now) (some (.tid c.id)) none with
          | .ok t => Except.ok ((update_task_field_status (insert_history s c.id false now)
              c.id Status.inProgress now, some t) : Store × Option Task)
          | .error e => Except.error e) = Except.ok (s', r) := h
      cases hgt : get_task (update_task_field_status (insert_history s c.id false now)
          c.id Status.inProgress now) (some (.tid c.id)) none with
      | error e => rw [hgt] at h2; cases h2
      | ok t =>
        rw [hgt] at h2
        injection h2 with h3
        have hs : (update_task_field_status (insert_history s c.id false now)
            c.id Status.inProgress now) = s' := congrArg Prod.fst h3
        rw [← hs]
        have htasks : (update_task_field_status (insert_history s c.id false now)
            c.id Status.inProgress now).tasks =
          s.tasks.map (fun u => if u.id == c.id then
            { u with status := Status.inProgress, last_modified := now } else u) := rfl
        refine ⟨WfStore_of_tasks_map s _ htasks
          (update_field_id c.id Status.inProgress now) ⟨hpw, hpos⟩, ?_⟩
        rw [currentCount_eq_of_tasks_map s _ htasks]
        have hcg : ∀ u ∈ s.tasks,
            (((if u.id == c.id then
              { u with status := Status.inProgress, last_modified := now } else u) : Task).status ==
                Status.current) = false := by
          intro u hu
          by_cases hi : (u.id == c.id) = true
          · simp [hi]
          · have hne2 : u.status ≠ Status.current := by
              intro hcur
              have := huniq u hu hcur
              rw [this] at hi
              simp at hi
            simp only [hi, Bool.false_eq_true, if_neg, not_false_iff]
            simpa using hne2
        rw [List.filter_congr hcg]
        simp

/-- A successful `finish_task` never increases the number of `CURRENT`
tasks and keeps the store well-formed. -/
theorem finish_inv {s : Store} {tid : Int} {now : Int} {s' : Store}
    (hwf : WfStore s) (hcc : currentCount s ≤ 1)
    (h : finish_task s tid now = .ok s') :
    WfStore s' ∧ currentCount s' ≤ 1 := by
  obtain ⟨hpw, hpos⟩ := hwf
  unfold finish_task at h
  cases hg : get_task s (some (.tid tid)) none with
  | error e => rw [hg] at h; simp [Bind.bind, Except.bind] at h
  | ok task =>
    rw [hg] at h
    have h0 : (if (task.status != Status.finished) = true then
        (Except.ok (update_task_field_status
          (if task.status == Status.current then insert_history s task.id false now else s)
          task.id Status.finished now) : Except ThunterError Store)
      else Except.ok
        (if task.status == Status.current then insert_history s task.id false now else s)) =
        Except.ok s' := h
    by_cases hfin : (task.status != Status.finished) = true
    · rw [if_pos hfin] at h0
      have h2 := h0
      injection h2 with h3
      rw [← h3]
      have htasks : (update_task_field_status
          (if task.status == Status.current then insert_history s task.id false now else s)
          task.id Status.finished now).tasks =
        s.tasks.map (fun u => if u.id == task.id then
          { u with status := Status.finished, last_modified := now } else u) := by
        by_cases hcur : (task.status == Status.current) = true <;>
          simp [hcur, update_task_field_status, insert_history]
      refine ⟨WfStore_of_tasks_map s _ htasks
        (update_field_id task.id Status.finished now) ⟨hpw, hpos⟩, ?_⟩
      rw [currentCount_eq_of_tasks_map s _ htasks]
      have hcg : ∀ u ∈ s.tasks,
          (((if u.id == task.id then
            { u with status := Status.finished, last_modified := now } else u) : Task).status ==
              Status.current) = true → (u.status == Status.current) = true := by
        intro u _ hu
        by_cases hi : (u.id == task.id) = true
        · rw [if_pos hi] at hu
          simp at hu
        · rw [if_neg (by simpa using hi)] at hu
          exact hu
      calc (s.tasks.filter _).length
          = s.tasks.countP _ := (List.countP_eq_length_filter _ _).symm
        _ ≤ s.tasks.countP (fun u => u.status == Status.current) :=
            List.countP_mono_left hcg
        _ = currentCount s := List.countP_eq_length_filter _ _
        _ ≤ 1 := hcc
    · rw [if_neg hfin] at h0
      have h2 := h0
      injection h2 with h3
      rw [← h3]
      by_cases hcur : (task.status == Status.current) = true
      · rw [if_pos hcur]
        exact ⟨⟨hpw, hpos⟩, hcc⟩
      · rw [if_neg (by simpa using hcur)]
        exact ⟨⟨hpw, hpos⟩, hcc⟩

/-- A successful `create_task` with a non-`CURRENT` status appends a fresh
row without touching the current count, and keeps the store well-formed. -/
theorem create_inv {s : Store} {nm : String} {est : Option Int} {desc : Option String}
    {st : Status} {now : Int} {s' : Store} {t : Task}
    (hwf : WfStore s) (hcc : currentCount s ≤ 1) (hst : st ≠ Status.current)
    (h : create_task s nm est desc st now = .ok (s', t)) :
    WfStore s' ∧ currentCount s' ≤ 1 := by
  obtain ⟨hpw, hpos⟩ := hwf
  unfold create_task at h
  have h0 : (match get_task (insert_task s nm est desc st now).1
      (some (.tid (insert_task s nm est desc st now).2)) none with
    | .ok u => (Except.ok ((insert_task s nm est desc st now).1, u) :
        Except ThunterError (Store × Task))
    | .error e => Except.error e) = Except.ok (s', t) := h
  cases hg : get_task (insert_task s nm est desc st now).1
      (some (.tid (insert_task s nm est desc st now).2)) none with
  | error e => rw [hg] at h0; cases h0
  | ok u =>
    rw [hg] at h0
    injection h0 with h3
    have hs : (insert_task s nm est desc st now).1 = s' := congrArg Prod.fst h3
    rw [← hs]
    have htasks : (insert_task s nm est desc st now).1.tasks =
        s.tasks ++ [⟨maxTaskId s + 1, nm, est, desc, st, now⟩] := rfl
    constructor
    · constructor
      · rw [htasks, List.pairwise_append]
        refine ⟨hpw, by simp, ?_⟩
        intro a ha b hb
        have hb2 : b = (⟨maxTaskId s + 1, nm, est, desc, st, now⟩ : Task) :=
          List.mem_singleton.mp hb
        rw [hb2]
        have h4 := id_le_maxTaskId ha
        show a.id ≠ maxTaskId s + 1
        omega
      · intro u' hu'
        rw [htasks] at hu'
        rcases List.mem_append.mp hu' with h1 | h1
        · exact hpos u' h1
        · have h2 : u' = (⟨maxTaskId s + 1, nm, est, desc, st, now⟩ : Task) :=
            List.mem_singleton.mp h1
          rw [h2]
          have h4 := maxTaskId_nonneg s
          show 0 < maxTaskId s + 1
          omega
    · rw [show currentCount ((insert_task s nm est desc st now).1) =
        ((s.tasks ++ [(⟨maxTaskId s + 1, nm, est, desc, st, now⟩ : Task)]).filter
          (fun u => u.status == Status.current)).length from rfl]
      rw [List.filter_append]
      have : ([(⟨maxTaskId s + 1, nm, est, desc, st, now⟩ : Task)].filter
          (fun u => u.status == Status.current)) = [] := by
        simp [hst]
      rw [this]
      simpa using hcc

/-- One timed lifecycle operation (with `create` not forcing `CURRENT`)
preserves well-formedness and the at-most-one-current invariant. -/
theorem runOp_inv (s : Store) (p : Op × Int) (hwf : WfStore s)
    (hcc : currentCount s ≤ 1) (hop : noCreateCurrent p.1) :
    WfStore (runOp s p) ∧ currentCount (runOp s p) ≤ 1 := by
  obtain ⟨op, tnow⟩ := p
  cases op with
  | workon i =>
    cases hap : workon_task s i tnow with
    | error e =>
      have hr : runOp s (Op.workon i, tnow) = s := by simp [runOp, applyOp, hap]
      rw [hr]
      exact ⟨hwf, hcc⟩
    | ok s' =>
      have hr : runOp s (Op.workon i, tnow) = s' := by simp [runOp, applyOp, hap]
      rw [hr]
      have := workon_inv hwf hcc hap
      exact ⟨this.1, by omega⟩
  | stop =>
    cases hst : stop_current_task s tnow with
    | error e =>
      have hr : runOp s (Op.stop, tnow) = s := by simp [runOp, applyOp, Except.map, hst]
      rw [hr]
      exact ⟨hwf, hcc⟩
    | ok pr =>
      obtain ⟨s', r⟩ := pr
      have hr : runOp s (Op.stop, tnow) = s' := by simp [runOp, applyOp, Except.map, hst]
      rw [hr]
      exact stop_inv hwf hcc hst
  | finish tid =>
    cases hf : finish_task s tid tnow with
    | error e =>
      have hr : runOp s (Op.finish tid, tnow) = s := by simp [runOp, applyOp, hf]
      rw [hr]
      exact ⟨hwf, hcc⟩
    | ok s' =>
      have hr : runOp s (Op.finish tid, tnow) = s' := by simp [runOp, applyOp, hf]
      rw [hr]
      exact finish_inv hwf hcc hf
  | create n e d st =>
    cases hc : create_task s n e d st tnow with
    | error er =>
      have hr : runOp s (Op.create n e d st, tnow) = s := by
        simp [runOp, applyOp, Except.map, hc]
      rw [hr]
      exact ⟨hwf, hcc⟩
    | ok pr =>
      obtain ⟨s', t⟩ := pr
      have hr : runOp s (Op.create n e d st, tnow) = s' := by
        simp [runOp, applyOp, Except.map, hc]
      rw [hr]
      exact create_inv hwf hcc hop hc

/-- Invariant preservation over a whole operation sequence. -/
theorem runOps_inv (ops : List (Op × Int)) :
    ∀ s : Store, WfStore s → currentCount s ≤ 1 → (∀ p ∈ ops, noCreateCurrent p.1) →
      WfStore (runOps s ops) ∧ currentCount (runOps s ops) ≤ 1 := by
  induction ops with
  | nil =>
    intro s hwf hcc _
    exact ⟨hwf, hcc⟩
  | cons p ops ih =>
    intro s hwf hcc hops
    have h1 := runOp_inv s p hwf hcc (hops p (List.mem_cons_self p ops))
    have h2 := ih (runOp s p) h1.1 h1.2 (fun q hq => hops q (List.mem_cons_of_mem p hq))
    exact h2

/-- C1, counterexample to the claim as stated: `create_task` takes an
arbitrary status, so creating a task with status `CURRENT` (as the edit
workflow does from parsed data) on a store that already has a current task
yields two `CURRENT` tasks after a single lifecycle operation. -/
theorem C1_single_current_cex :
    WfStore ⟨[⟨1, "a", none, none, Status.current, 0⟩], []⟩ ∧
    currentCount ⟨[⟨1, "a", none, none, Status.current, 0⟩], []⟩ ≤ 1 ∧
    currentCount (runOps ⟨[⟨1, "a", none, none, Status.current, 0⟩], []⟩
      [(Op.create "b" none none Status.current, 5)]) = 2 := by
  refine ⟨⟨by simp, by decide⟩, by decide, by decide⟩

/-- C1, amended.  For every sequence of lifecycle operations in which
`create_task` is never invoked with status `CURRENT`, a well-formed store
with at most one `CURRENT` task keeps at most one `CURRENT` task after
each operation; and a successful `workon_task` resolving to target `t`
leaves exactly one `CURRENT` task, with the target's row `CURRENT` and the
previously current task (when distinct from the target) moved to
`IN_PROGRESS`. -/
theorem C1_single_current_amended :
    (∀ (s : Store) (ops : List (Op × Int)), WfStore s → currentCount s ≤ 1 →
      (∀ p ∈ ops, noCreateCurrent p.1) → currentCount (runOps s ops) ≤ 1) ∧
    (∀ (s : Store) (ident : TaskIdentifier) (now : Int) (s' : Store) (t : Task),
      WfStore s → currentCount s ≤ 1 →
      get_task s (some ident) none = .ok t →
      workon_task s ident now = .ok s' →
      currentCount s' = 1 ∧
      (∀ u ∈ s'.tasks, u.id = t.id → u.status = Status.current) ∧
      (∀ c ∈ s.tasks, c.status = Status.current → c.id ≠ t.id →
        ∀ u ∈ s'.tasks, u.id = c.id → u.status = Status.inProgress)) := by
  constructor
  · intro s ops hwf hcc hops
    exact (runOps_inv ops s hwf hcc hops).2
  · intro s ident now s' t hwf hcc hres h
    obtain ⟨he1, he2⟩ := workon_effect hwf hcc hres h
    exact ⟨(workon_inv hwf hcc h).2.1, he1, he2⟩

/-- C1 witness: a six-operation lifecycle run from an empty store keeps at
most one task `CURRENT`; and working on the TODO task of a store whose
other task is `CURRENT` yields exactly one `CURRENT` task (the computed
result store, in which the target is `CURRENT` and the old current task is
`IN_PROGRESS`). -/
theorem C1_single_current_witness :
    currentCount (runOps ⟨[], []⟩
      [(Op.create "a" none none Status.todo, 1),
       (Op.create "b" (some 2) none Status.todo, 2),
       (Op.workon (.tid 1), 3),
       (Op.workon (.tname "b"), 4),
       (Op.stop, 5),
       (Op.finish 2, 6)]) ≤ 1 ∧
    currentCount ⟨[⟨1, "a", none, none, Status.inProgress, 7⟩,
      ⟨2, "b", none, none, Status.current, 7⟩],
      [⟨1, 1, false, 7⟩, ⟨2, 2, true, 7⟩]⟩ = 1 :=
  ⟨C1_single_current_amended.1 ⟨[], []⟩ _ ⟨by simp, by simp⟩ (by decide)
      (by intro p hp; fin_cases hp <;> simp [noCreateCurrent]),
    (C1_single_current_amended.2
      ⟨[⟨1, "a", none, none, Status.current, 10⟩, ⟨2, "b", none, none, Status.todo, 5⟩], []⟩
      (.tid 2) 7
      ⟨[⟨1, "a", none, none, Status.inProgress, 7⟩, ⟨2, "b", none, none, Status.current, 7⟩],
        [⟨1, 1, false, 7⟩, ⟨2, 2, true, 7⟩]⟩
      ⟨2, "b", none, none, Status.todo, 5⟩
      (by constructor <;> decide) (by decide) (by decide) (by decide)).1⟩

/-- A blank is not a `word` character. -/
theorem blank_not_word {c : Char} (h : blankChar c = true) : wordChar c = false := by
  simp only [blankChar, Bool.or_eq_true, beq_iff_eq] at h
  rcases h with h | h <;> subst h <;> decide

/-- A `word` character is not a blank. -/
theorem word_not_blank {c : Char} (h : wordChar c = true) : blankChar c = false := by
  by_cases hb : blankChar c = true
  · rw [blank_not_word hb] at h
    cases h
  · simpa using hb

/-- Matching a literal against itself followed by anything. -/
theorem litP_self : ∀ (l r : List Char), litP l (l ++ r) = some r := by
  intro l
  induction l with
  | nil => intro r; rfl
  | cons c cs ih => intro r; simp [litP, ih]

/-- `takeWhile` stops exactly at the first failing head. -/
theorem takeWhile_all_append {p : Char → Bool} :
    ∀ (w r : List Char), (∀ c ∈ w, p c = true) → headNot p r →
      (w ++ r).takeWhile p = w := by
  intro w
  induction w with
  | nil =>
    intro r _ hr
    cases r with
    | nil => rfl
    | cons c cs => simp [List.takeWhile_cons, headNot] at hr ⊢; simp [hr]
  | cons a w ih =>
    intro r hw hr
    have ha := hw a (List.mem_cons_self a w)
    simp [List.takeWhile_cons, ha, ih r (fun c hc => hw c (List.mem_cons_of_mem a hc)) hr]

/-- `dropWhile` drops exactly up to the first failing head. -/
theorem dropWhile_all_append {p : Char → Bool} :
    ∀ (w r : List Char), (∀ c ∈ w, p c = true) → headNot p r →
      (w ++ r).dropWhile p = r := by
  intro w
  induction w with
  | nil =>
    intro r _ hr
    cases r with
    | nil => rfl
    | cons c cs => simp [headNot] at hr; simp [List.dropWhile_cons, hr]
  | cons a w ih =>
    intro r hw hr
    have ha := hw a (List.mem_cons_self a w)
    simp [List.dropWhile_cons, ha, ih r (fun c hc => hw c (List.mem_cons_of_mem a hc)) hr]

/-- `whitespace?` does not move on a non-blank head. -/
theorem wsOpt_nonblank {l : List Char} (h : headNot blankChar l) : wsOpt l = l := by
  cases l with
  | nil => rfl
  | cons c cs =>
    simp only [headNot] at h
    simp [wsOpt, List.dropWhile_cons, h]

/-- `whitespace?` eats exactly one space in front of a non-blank tail. -/
theorem wsOpt_space {l : List Char} (h : headNot blankChar l) : wsOpt (' ' :: l) = l := by
  simp only [wsOpt, List.dropWhile_cons]
  rw [show blankChar ' ' = true from rfl]
  simp only [if_pos]
  exact wsOpt_nonblank h

/-- The head of a `dropWhile` result fails the predicate. -/
theorem dropWhile_head_false {p : Char → Bool} :
    ∀ (l : List Char) (c : Char) (t : List Char), l.dropWhile p = c :: t → p c = false := by
  intro l
  induction l with
  | nil => intro c t h; cases h
  | cons a as ih =>
    intro c t h
    by_cases ha : p a = true
    · rw [List.dropWhile_cons, if_pos ha] at h
      exact ih c t h
    · rw [List.dropWhile_cons, if_neg ha] at h
      cases h
      simpa using ha

/-- `decGo` is fuel-invariant once the fuel covers the number. -/
theorem decGo_fuel : ∀ (n f f' : Nat), n ≤ f → n ≤ f' → decGo f n = decGo f' n := by
  intro n
  induction n using Nat.strong_induction_on with
  | _ n ih =>
    intro f f' h1 h2
    match f, f' with
    | 0, 0 => rfl
    | 0, g + 1 =>
      have hn : n = 0 := by omega
      subst hn
      simp [decGo]
    | g + 1, 0 =>
      have hn : n = 0 := by omega
      subst hn
      simp [decGo]
    | g + 1, g' + 1 =>
      by_cases hn : n < 10
      · simp [decGo, hn]
      · simp only [decGo, hn, if_neg, not_false_iff]
        have hdiv : n / 10 < n := Nat.div_lt_self (by omega) (by omega)
        rw [ih (n / 10) hdiv g (n / 10) (by omega) (le_refl _),
          ih (n / 10) hdiv g' (n / 10) (by omega) (le_refl _)]

/-- The recursive unfolding of the decimal renderer. -/
theorem decChars_eq (n : Nat) :
    decChars n = if n < 10 then [digitChar n]
      else decChars (n / 10) ++ [digitChar (n % 10)] := by
  by_cases hn : n < 10
  · unfold decChars
    match n, hn with
    | 0, _ => rfl
    | k + 1, hk => simp [decGo, hk]
  · unfold decChars
    match n, hn with
    | k + 1, hk =>
      rw [show decGo (k + 1) (k + 1) = if k + 1 < 10 then [digitChar (k + 1)]
          else decGo k ((k + 1) / 10) ++ [digitChar ((k + 1) % 10)] from rfl]
      rw [if_neg hk, if_neg hk]
      congr 1
      exact decGo_fuel ((k + 1) / 10) k ((k + 1) / 10)
        (by
          have hlt : (k + 1) / 10 < k + 1 := Nat.div_lt_self (Nat.succ_pos k) (by omega)
          omega)
        (le_refl _)

/-- Decimal digits are ASCII digits with the expected code points. -/
theorem digitChar_facts : ∀ d < 10, ('0' ≤ digitChar d ∧ digitChar d ≤ '9') ∧
    (digitChar d).isDigit = true ∧ (digitChar d).toNat = 48 + d := by
  decide

/-- Every rendered character is a digit. -/
theorem decChars_digits : ∀ n : Nat, ∀ c ∈ decChars n, c.isDigit = true := by
  intro n
  induction n using Nat.strong_induction_on with
  | _ n ih =>
    intro c hc
    rw [decChars_eq] at hc
    by_cases hn : n < 10
    · rw [if_pos hn] at hc
      rcases List.mem_singleton.mp hc with rfl
      exact ((digitChar_facts n hn).2).1
    · rw [if_neg hn] at hc
      rcases List.mem_append.mp hc with h | h
      · exact ih (n / 10) (Nat.div_lt_self (by omega) (by omega)) c h
      · rcases List.mem_singleton.mp h with rfl
        exact ((digitChar_facts (n % 10) (Nat.mod_lt n (by omega))).2).1

/-- A positive number renders with a leading digit in `'1'`–`'9'`. -/
theorem decChars_head_pos : ∀ n : Nat, 1 ≤ n →
    ∃ c cs, decChars n = c :: cs ∧ ('1' ≤ c ∧ c ≤ '9') := by
  intro n
  induction n using Nat.strong_induction_on with
  | _ n ih =>
    intro hn
    rw [decChars_eq]
    by_cases h : n < 10
    · refine ⟨digitChar n, [], by simp [h], ?_⟩
      have : ∀ d, 1 ≤ d → d < 10 → '1' ≤ digitChar d ∧ digitChar d ≤ '9' := by decide
      exact this n hn h
    · rw [if_neg h]
      have hd : n / 10 < n := Nat.div_lt_self (by omega) (by omega)
      have h1 : 1 ≤ n / 10 := by
        have := Nat.div_le_div_right (c := 10) (show 10 ≤ n by omega)
        simpa using this
      obtain ⟨c, cs, hcs, hb⟩ := ih (n / 10) hd h1
      exact ⟨c, cs ++ [digitChar (n % 10)], by rw [hcs]; rfl, hb⟩

/-- The rendering of a number is non-empty. -/
theorem decChars_ne_nil (n : Nat) : decChars n ≠ [] := by
  rw [decChars_eq]
  by_cases h : n < 10 <;> simp [h]

/-- Folding the decimal digits back recovers the number. -/
theorem val_decChars : ∀ n : Nat,
    (decChars n).foldl (fun a c => a * 10 + (c.toNat - 48)) 0 = n := by
  have haux : ∀ n : Nat, ∀ a : Nat,
      (decChars n).foldl (fun a c => a * 10 + (c.toNat - 48)) a =
        a * 10 ^ (decChars n).length + n := by
    intro n
    induction n using Nat.strong_induction_on with
    | _ n ih =>
      intro a
      rw [decChars_eq]
      by_cases h : n < 10
      · rw [if_pos h]
        simp only [List.foldl_cons, List.foldl_nil, List.length_singleton]
        rw [((digitChar_facts n h).2).2]
        ring_nf
        omega
      · rw [if_neg h]
        rw [List.foldl_append]
        have hd : n / 10 < n := Nat.div_lt_self (by omega) (by omega)
        rw [ih (n / 10) hd a]
        simp only [List.foldl_cons, List.foldl_nil, List.length_append,
          List.length_singleton]
        rw [((digitChar_facts (n % 10) (Nat.mod_lt n (by omega))).2).2]
        have hmod : 48 + n % 10 - 48 = n % 10 := by omega
        rw [hmod, pow_succ]
        have : (a * 10 ^ (decChars (n / 10)).length + n / 10) * 10 + n % 10 =
            a * (10 ^ (decChars (n / 10)).length * 10) + (n / 10 * 10 + n % 10) := by ring
        rw [this]
        congr 1
        omega
  intro n
  have := haux n 0
  simpa using this

/-- A phrase tail starts with a blank (or is empty), hence never with a
`word` character. -/
theorem ptail_headNot_word {t : List Char} (h : PTail t) : headNot wordChar t := by
  cases h with
  | nil => trivial
  | cons b w rest hbne hb _ _ _ =>
    cases b with
    | nil => exact absurd rfl hbne
    | cons c cs =>
      show wordChar c = false
      exact blank_not_word (hb c (List.mem_cons_self c cs))

/-- `headNot` over an append. -/
theorem headNot_append {p : Char → Bool} {l r : List Char}
    (hl : headNot p l) (hr : headNot p r) : headNot p (l ++ r) := by
  cases l with
  | nil => simpa using hr
  | cons c cs => simpa [headNot] using hl

/-- The `(whitespace word)*` loop consumes exactly a phrase tail when the
rest starts with neither kind of character. -/
theorem phraseLoop_ptail :
    ∀ (t : List Char), PTail t → ∀ (r : List Char) (fuel : Nat),
      headNot wordChar r → headNot blankChar r → t.length + 1 ≤ fuel →
      phraseLoop fuel (t ++ r) = (t, r) := by
  intro t ht
  induction ht with
  | nil =>
    intro r fuel hw hb hf
    match fuel, hf with
    | f + 1, _ =>
      show phraseLoop (f + 1) r = ([], r)
      unfold phraseLoop
      cases htw : r.takeWhile blankChar with
      | nil => rfl
      | cons c cs =>
        exfalso
        cases r with
        | nil => simp at htw
        | cons x xs =>
          simp only [headNot] at hb
          rw [List.takeWhile_cons, if_neg (by simp [hb])] at htw
          cases htw
  | cons b w rest hbne hb hwne hw hrest ih =>
    intro r fuel hnw hnb hf
    match fuel, hf with
    | f + 1, hf =>
      have hlen : rest.length + 1 ≤ f := by
        have hb1 : 1 ≤ b.length := by
          cases b with
          | nil => exact absurd rfl hbne
          | cons _ _ => simp
        have hw1 : 1 ≤ w.length := by
          cases w with
          | nil => exact absurd rfl hwne
          | cons _ _ => simp
        simp only [List.length_append] at hf
        omega
      have hassoc : (b ++ w ++ rest) ++ r = b ++ (w ++ (rest ++ r)) := by
        simp [List.append_assoc]
      rw [hassoc]
      unfold phraseLoop
      have hwrest : headNot blankChar (w ++ (rest ++ r)) := by
        cases w with
        | nil => exact absurd rfl hwne
        | cons c cs =>
          show blankChar c = false
          exact word_not_blank (hw c (List.mem_cons_self c cs))
      rw [takeWhile_all_append b (w ++ (rest ++ r)) hb hwrest]
      cases b with
      | nil => exact absurd rfl hbne
      | cons b0 bs =>
        simp only
        rw [show ((b0 :: bs).length) = (b0 :: bs : List Char).length from rfl,
          List.drop_left]
        have hrw : headNot wordChar (rest ++ r) :=
          headNot_append (ptail_headNot_word hrest) hnw
        rw [takeWhile_all_append w (rest ++ r) hw hrw]
        cases w with
        | nil => exact absurd rfl hwne
        | cons w0 ws =>
          simp only
          rw [show ((w0 :: ws).length) = (w0 :: ws : List Char).length from rfl,
            List.drop_left]
          rw [ih r f hnw hnb hlen]

/-- `phrase` consumes exactly a grammar-shaped span and returns its text. -/
theorem phraseP_shape {w t r : List Char} (hwne : w ≠ [])
    (hw : ∀ c ∈ w, wordChar c = true) (ht : PTail t)
    (hnw : headNot wordChar r) (hnb : headNot blankChar r) :
    phraseP ((w ++ t) ++ r) = some (w ++ t, r) := by
  have hassoc : (w ++ t) ++ r = w ++ (t ++ r) := by simp [List.append_assoc]
  rw [hassoc]
  unfold phraseP wordP
  have htr : headNot wordChar (t ++ r) := headNot_append (ptail_headNot_word ht) hnw
  rw [takeWhile_all_append w (t ++ r) hw htr]
  cases w with
  | nil => exact absurd rfl hwne
  | cons w0 ws =>
    simp only
    rw [show ((w0 :: ws).length) = (w0 :: ws : List Char).length from rfl, List.drop_left]
    rw [phraseLoop_ptail t ht r ((t ++ r).length + 1) hnw hnb
      (by simp [List.length_append])]

/-- A `goodPhrase` splits into a leading word run and a phrase tail. -/
theorem goodPhrase_split :
    ∀ (fuel : Nat) (l : List Char), l.length ≤ fuel → goodPhrase l = true →
      ∃ w t, l = w ++ t ∧ w ≠ [] ∧ (∀ c ∈ w, wordChar c = true) ∧ PTail t := by
  intro fuel
  induction fuel with
  | zero =>
    intro l hl hg
    have hnil : l = [] := by
      cases l with
      | nil => rfl
      | cons c cs => simp at hl
    subst hnil
    simp [goodPhrase] at hg
  | succ f ih =>
    intro l hl hg
    simp only [goodPhrase, Bool.and_eq_true, List.all_eq_true] at hg
    obtain ⟨⟨hhead, hlast⟩, hall⟩ := hg
    have hlne : l ≠ [] := by
      intro h
      rw [h] at hhead
      simp at hhead
    have hsplit : l = l.takeWhile wordChar ++ l.dropWhile wordChar :=
      (List.takeWhile_append_dropWhile wordChar l).symm
    have hwne : l.takeWhile wordChar ≠ [] := by
      cases l with
      | nil => exact absurd rfl hlne
      | cons c cs =>
        have hc : wordChar c = true := by simpa using hhead
        simp [List.takeWhile_cons, hc]
    have hwall : ∀ c ∈ l.takeWhile wordChar, wordChar c = true :=
      fun c hc => List.mem_takeWhile_imp hc
    refine ⟨l.takeWhile wordChar, l.dropWhile wordChar, hsplit, hwne, hwall, ?_⟩
    cases htc : l.dropWhile wordChar with
    | nil => exact PTail.nil
    | cons c2 t2 =>
      have hmem_t : ∀ x ∈ c2 :: t2, x ∈ l := by
        intro x hx
        rw [← htc] at hx
        exact (List.dropWhile_sublist wordChar).mem hx
      have hc2f : wordChar c2 = false := dropWhile_head_false l c2 t2 htc
      have hc2b : blankChar c2 = true := by
        have := hall c2 (hmem_t c2 (List.mem_cons_self c2 t2))
        rcases Bool.or_eq_true_iff.mp this with h | h
        · rw [h] at hc2f; cases hc2f
        · exact h
      have hbt : (c2 :: t2 : List Char) =
          (c2 :: t2).takeWhile blankChar ++ (c2 :: t2).dropWhile blankChar :=
        (List.takeWhile_append_dropWhile blankChar (c2 :: t2)).symm
      have hbne : (c2 :: t2).takeWhile blankChar ≠ [] := by
        simp [List.takeWhile_cons, hc2b]
      have hball : ∀ c ∈ (c2 :: t2).takeWhile blankChar, blankChar c = true :=
        fun c hc => List.mem_takeWhile_imp hc
      have hmem_t3 : ∀ x ∈ (c2 :: t2).dropWhile blankChar, x ∈ l := fun x hx =>
        hmem_t x ((List.dropWhile_sublist blankChar).mem hx)
      have hlastl : l.getLast? = (c2 :: t2).getLast? := by
        rw [hsplit, htc, List.getLast?_append]
        have hne : ((c2 :: t2 : List Char)).getLast? ≠ none := by
          simp [List.getLast?_cons]
        cases htl : ((c2 :: t2 : List Char)).getLast? with
        | none => exact absurd htl hne
        | some x => simp [htl, Option.or]
      have ht3ne : (c2 :: t2).dropWhile blankChar ≠ [] := by
        intro h3
        rw [h3, List.append_nil] at hbt
        cases htl : ((c2 :: t2 : List Char)).getLast? with
        | none => simp [List.getLast?_cons] at htl
        | some x =>
          have hx : x ∈ (c2 :: t2 : List Char) := List.mem_of_mem_getLast? htl
          have hxb : blankChar x = true := by
            have : x ∈ (c2 :: t2).takeWhile blankChar := by rw [← hbt]; exact hx
            exact List.mem_takeWhile_imp this
          rw [hlastl, htl] at hlast
          simp only at hlast
          rw [blank_not_word hxb] at hlast
          cases hlast
      have hgood3 : goodPhrase ((c2 :: t2).dropWhile blankChar) = true := by
        simp only [goodPhrase, Bool.and_eq_true, List.all_eq_true]
        refine ⟨⟨?_, ?_⟩, fun x hx => hall x (hmem_t3 x hx)⟩
        · cases ht3c : (c2 :: t2).dropWhile blankChar with
          | nil => exact absurd ht3c ht3ne
          | cons d ds =>
            have hdb : blankChar d = false :=
              dropWhile_head_false (c2 :: t2) d ds ht3c
            have hdl : d ∈ l := by
              refine hmem_t3 d ?_
              rw [ht3c]
              exact List.mem_cons_self d ds
            have := hall d hdl
            show wordChar d = true
            rcases Bool.or_eq_true_iff.mp this with h | h
            · exact h
            · rw [h] at hdb; cases hdb
        · have hlast3 : (c2 :: t2 : List Char).getLast? =
              ((c2 :: t2).dropWhile blankChar).getLast? := by
            rw [hbt, List.getLast?_append]
            have hne : (((c2 :: t2).dropWhile blankChar)).getLast? ≠ none := by
              cases ht3c : (c2 :: t2).dropWhile blankChar with
              | nil => exact absurd ht3c ht3ne
              | cons d ds => simp [List.getLast?_cons]
            cases htl : (((c2 :: t2).dropWhile blankChar)).getLast? with
            | none => exact absurd htl hne
            | some x => simp [htl, Option.or]
          rw [← hlast3, ← hlastl]
          exact hlast
      have hlen3 : ((c2 :: t2).dropWhile blankChar).length ≤ f := by
        have h1 : l.length = (l.takeWhile wordChar).length + ((c2 :: t2).takeWhile blankChar).length +
            ((c2 :: t2).dropWhile blankChar).length := by
          have h2 : (c2 :: t2 : List Char).length =
              ((c2 :: t2).takeWhile blankChar).length +
                ((c2 :: t2).dropWhile blankChar).length := by
            conv_lhs => rw [hbt]
            rw [List.length_append]
          have h3 : l.length = (l.takeWhile wordChar).length + (c2 :: t2 : List Char).length := by
            conv_lhs => rw [hsplit, htc]
            rw [List.length_append]
          omega
        have hw1 : 1 ≤ (l.takeWhile wordChar).length := by
          cases hwc : l.takeWhile wordChar with
          | nil => exact absurd hwc hwne
          | cons _ _ => simp
        have hb1 : 1 ≤ ((c2 :: t2).takeWhile blankChar).length := by
          cases hbc : (c2 :: t2).takeWhile blankChar with
          | nil => exact absurd hbc hbne
          | cons _ _ => simp
        omega
      obtain ⟨w2, t4, hsplit4, hw2ne, hw2all, ht4⟩ :=
        ih ((c2 :: t2).dropWhile blankChar) hlen3 hgood3
      rw [hbt, hsplit4, ← List.append_assoc]
      exact PTail.cons _ w2 t4 hbne hball hw2ne hw2all ht4

/-- `phrase` consumes exactly a `goodPhrase` and returns its text. -/
theorem phraseP_good {l r : List Char} (hg : goodPhrase l = true)
    (hnw : headNot wordChar r) (hnb : headNot blankChar r) :
    phraseP (l ++ r) = some (l, r) := by
  obtain ⟨w, t, hsplit, hwne, hwall, ht⟩ := goodPhrase_split l.length l (le_refl _) hg
  rw [hsplit]
  exact phraseP_shape hwne hwall ht hnw hnb

set_option maxRecDepth 4000 in
/-- Walking the month table inverts the cumulative day-of-year sum, with
the month and day in their calendar ranges. -/
theorem monthDay_inv : ∀ (leap : Bool), ∀ doy < (if leap then 366 else 365),
    cumDays leap (monthDayAux (monthLens leap) 1 doy).1 +
      ((monthDayAux (monthLens leap) 1 doy).2 - 1) = doy ∧
    1 ≤ (monthDayAux (monthLens leap) 1 doy).1 ∧ (monthDayAux (monthLens leap) 1 doy).1 ≤ 12 ∧
    1 ≤ (monthDayAux (monthLens leap) 1 doy).2 ∧ (monthDayAux (monthLens leap) 1 doy).2 ≤ 31 := by
  decide

/-- Breaking a timestamp of 2000–2099 into calendar fields stays in the
grammar's ranges, and `calendar.timegm` reassembles exactly the original
timestamp. -/
theorem epochToDateTime_inv (t : Int) (ht : timeInRange t) :
    (2000 ≤ (epochToDateTime t).y ∧ (epochToDateTime t).y ≤ 2099) ∧
    (1 ≤ (epochToDateTime t).m ∧ (epochToDateTime t).m ≤ 12) ∧
    (1 ≤ (epochToDateTime t).d ∧ (epochToDateTime t).d ≤ 31) ∧
    (epochToDateTime t).hh ≤ 23 ∧ (epochToDateTime t).mm ≤ 59 ∧ (epochToDateTime t).ss ≤ 59 ∧
    timegm (epochToDateTime t).y (epochToDateTime t).m (epochToDateTime t).d
      (epochToDateTime t).hh (epochToDateTime t).mm (epochToDateTime t).ss = t := by
  obtain ⟨h1, h2⟩ := ht
  have hu0 : 0 ≤ t - epoch2000 := by
    simp only [epoch2000] at h1 ⊢
    omega
  obtain ⟨u, hu⟩ : ∃ u : Nat, (t - epoch2000).toNat = u := ⟨_, rfl⟩
  have hcast : (u : Int) = t - 946684800 := by
    rw [← hu, Int.toNat_of_nonneg hu0]
    simp only [epoch2000]
  have hub : u < 36525 * 86400 := by
    have hlt : (u : Int) < 36525 * 86400 := by
      rw [hcast]
      simp only [epoch2000] at h2
      omega
    exact_mod_cast hlt
  have hy : (epochToDateTime t).y = 2000 + 4 * (u / 86400 / 1461) +
      (if u / 86400 % 1461 < 366 then 0
        else (u / 86400 % 1461 - 366) / 365 + 1) := by
    rw [← hu]
    rfl
  have hm : (epochToDateTime t).m = (monthDayAux (monthLens
      ((if u / 86400 % 1461 < 366 then 0
        else (u / 86400 % 1461 - 366) / 365 + 1) == 0)) 1
      (if u / 86400 % 1461 < 366 then u / 86400 % 1461
        else (u / 86400 % 1461 - 366) % 365)).1 := by
    rw [← hu]
    rfl
  have hd : (epochToDateTime t).d = (monthDayAux (monthLens
      ((if u / 86400 % 1461 < 366 then 0
        else (u / 86400 % 1461 - 366) / 365 + 1) == 0)) 1
      (if u / 86400 % 1461 < 366 then u / 86400 % 1461
        else (u / 86400 % 1461 - 366) % 365)).2 := by
    rw [← hu]
    rfl
  have hhh : (epochToDateTime t).hh = u % 86400 / 3600 := by
    rw [← hu]
    rfl
  have hm5 : (epochToDateTime t).mm = u % 86400 % 3600 / 60 := by
    rw [← hu]
    rfl
  have hss : (epochToDateTime t).ss = u % 86400 % 60 := by
    rw [← hu]
    rfl
  clear hu hu0 h1 h2
  by_cases hcase : u / 86400 % 1461 < 366
  · simp only [if_pos hcase] at hy hm hd
    have hflag : ((0 : Nat) == 0) = true := rfl
    rw [hflag] at hm hd
    have hmd := monthDay_inv true (u / 86400 % 1461) (by simpa using hcase)
    obtain ⟨hsum, hm1, hm2, hd1, hd2⟩ := hmd
    have hleap : isLeap (2000 + 4 * (u / 86400 / 1461) + 0) = true := by
      simp only [isLeap, beq_iff_eq]
      omega
    refine ⟨⟨by omega, by omega⟩, ⟨by rw [hm]; exact hm1, by rw [hm]; exact hm2⟩,
      ⟨by rw [hd]; exact hd1, by rw [hd]; exact hd2⟩,
      by rw [hhh]; omega, by rw [hm5]; omega, by rw [hss]; omega, ?_⟩
    · rw [hy, hm, hd, hhh, hm5, hss]
      unfold timegm daysFrom1970
      rw [hleap, Int.ofNat_eq_natCast]
      omega
  · simp only [if_neg hcase] at hy hm hd
    have hr1461 : u / 86400 % 1461 < 1461 := Nat.mod_lt _ (by omega)
    have hflag : (((u / 86400 % 1461 - 366) / 365 + 1) == 0) = false := by
      simp
    rw [hflag] at hm hd
    have hmd := monthDay_inv false ((u / 86400 % 1461 - 366) % 365)
      (by
        have hlt365 : (u / 86400 % 1461 - 366) % 365 < 365 := Nat.mod_lt _ (by omega)
        simpa using hlt365)
    obtain ⟨hsum, hm1, hm2, hd1, hd2⟩ := hmd
    have hyin3 : (u / 86400 % 1461 - 366) / 365 + 1 ≤ 3 := by omega
    have hleap : isLeap (2000 + 4 * (u / 86400 / 1461) +
        ((u / 86400 % 1461 - 366) / 365 + 1)) = false := by
      simp only [isLeap, beq_eq_false_iff_ne, ne_eq]
      omega
    refine ⟨⟨by omega, by omega⟩, ⟨by rw [hm]; exact hm1, by rw [hm]; exact hm2⟩,
      ⟨by rw [hd]; exact hd1, by rw [hd]; exact hd2⟩,
      by rw [hhh]; omega, by rw [hm5]; omega, by rw [hss]; omega, ?_⟩
    · rw [hy, hm, hd, hhh, hm5, hss]
      unfold timegm daysFrom1970
      rw [hleap, Int.ofNat_eq_natCast]
      omega

/-- Rebuilding a string from its character data gives it back. -/
theorem str_eta (s : String) : (⟨s.data⟩ : String) = s := by
  cases s
  rfl

/-- `dropWhile` does not move past a failing head. -/
theorem dropWhile_headNot {p : Char → Bool} (l : List Char) (h : headNot p l) :
    l.dropWhile p = l :=
  dropWhile_all_append [] l (by simp) h

/-- `newline+` consumes exactly one newline in front of a line that does not
start with another newline. -/
theorem nlPlus_cons {l : List Char} (h : headNot (· == '\n') l) :
    nlPlus ('\n' :: l) = some l := by
  show some (l.dropWhile (· == '\n')) = some l
  rw [dropWhile_headNot l h]

/-- A `goodPhrase` is a cons whose head is a `word` character. -/
theorem goodPhrase_head {l : List Char} (h : goodPhrase l = true) :
    ∃ c t, l = c :: t ∧ wordChar c = true := by
  cases l with
  | nil => simp [goodPhrase] at h
  | cons c t =>
    refine ⟨c, t, rfl, ?_⟩
    simp only [goodPhrase, List.head?_cons, Bool.and_eq_true] at h
    exact h.1.1

/-- `status_type` parses back each rendered status value. -/
theorem statusTypeP_value (st : Status) (r : List Char) :
    statusTypeP (st.value.data ++ r) = some (st, r) := by
  cases st <;> rfl

/-- `history_record_type` parses back `"Start"`/`"Stop"`. -/
theorem historyRecordTypeP_render (b : Bool) (r : List Char) :
    historyRecordTypeP (((if b then "Start" else "Stop") : String).data ++ r) = some (b, r) := by
  cases b <;> rfl

/-- Two-digit decimal rendering, digit by digit. -/
theorem decChars_two (n : Nat) (h10 : 10 ≤ n) (h100 : n < 100) :
    decChars n = [digitChar (n / 10), digitChar (n % 10)] := by
  rw [decChars_eq, if_neg (by omega), decChars_eq, if_pos (by omega)]
  rfl

/-- `"%02d"` of a number below 100, digit by digit. -/
theorem pad2_data (n : Nat) (h : n < 100) :
    (pad2 n).data = [digitChar (n / 10), digitChar (n % 10)] := by
  unfold pad2
  by_cases h10 : n < 10
  · rw [if_pos h10, decChars_eq, if_pos h10,
      show n / 10 = 0 from by omega, show n % 10 = n from by omega]
    rfl
  · rw [if_neg h10, decChars_two n (by omega) h]

/-- The decimal rendering of a year 2000–2099 is `"20"` then two digits. -/
theorem decChars_year (y : Nat) (h1 : 2000 ≤ y) (h2 : y ≤ 2099) :
    decChars y = ['2', '0', digitChar (y / 10 % 10), digitChar (y % 10)] := by
  rw [decChars_eq, if_neg (by omega), decChars_eq (y / 10), if_neg (by omega),
    show y / 10 / 10 = 20 from by omega, show decChars 20 = ['2', '0'] from rfl]
  rfl

/-- `year` parses back a rendered year 2000–2099. -/
theorem yearP_render (y : Nat) (h1 : 2000 ≤ y) (h2 : y ≤ 2099) (r : List Char) :
    yearP (decChars y ++ r) = some (y, r) := by
  rw [decChars_year y h1 h2]
  have hda := (digitChar_facts (y / 10 % 10) (by omega)).2.1
  have hdb := (digitChar_facts (y % 10) (by omega)).2.1
  have hta := (digitChar_facts (y / 10 % 10) (by omega)).2.2
  have htb := (digitChar_facts (y % 10) (by omega)).2.2
  show (if (digitChar (y / 10 % 10)).isDigit && (digitChar (y % 10)).isDigit
      then some (2000 + twoDigitVal (digitChar (y / 10 % 10)) (digitChar (y % 10)), r)
      else none) = some (y, r)
  rw [hda, hdb]
  simp only [Bool.and_self, if_pos]
  have hv : 2000 + twoDigitVal (digitChar (y / 10 % 10)) (digitChar (y % 10)) = y := by
    simp only [twoDigitVal, hta, htb]
    omega
  rw [hv]

/-- `month` parses back a zero-padded month 1–12. -/
theorem monthP_render (m : Nat) (h1 : 1 ≤ m) (h2 : m ≤ 12) (r : List Char) :
    monthP (digitChar (m / 10) :: digitChar (m % 10) :: r) = some (m, r) := by
  interval_cases m <;> rfl

/-- `day` parses back a zero-padded day 1–31. -/
theorem dayP_render (d : Nat) (h1 : 1 ≤ d) (h2 : d ≤ 31) (r : List Char) :
    dayP (digitChar (d / 10) :: digitChar (d % 10) :: r) = some (d, r) := by
  interval_cases d <;> rfl

/-- `hours` parses back a zero-padded hour 0–23. -/
theorem hoursP_render (h : Nat) (h2 : h ≤ 23) (r : List Char) :
    hoursP (digitChar (h / 10) :: digitChar (h % 10) :: r) = some (h, r) := by
  interval_cases h <;> rfl

/-- `minutes` (and `seconds`) parses back a zero-padded value 0–59. -/
theorem minutesP_render (m : Nat) (h2 : m ≤ 59) (r : List Char) :
    minutesP (digitChar (m / 10) :: digitChar (m % 10) :: r) = some (m, r) := by
  interval_cases m <;> rfl

/-- `int` parses back the rendering of a positive number, stopping at the
first non-digit. -/
theorem intP_pos_render (n : Nat) (h1 : 1 ≤ n) (r : List Char)
    (hr : headNot Char.isDigit r) :
    intP (decChars n ++ r) = some (decChars n, r) := by
  obtain ⟨c, cs, hcs, hc1, hc9⟩ := decChars_head_pos n h1
  have hdigits : ∀ x ∈ cs, x.isDigit = true := by
    intro x hx
    exact decChars_digits n x (by rw [hcs]; exact List.mem_cons_of_mem c hx)
  rw [hcs]
  show (if ('1' ≤ c && c ≤ '9') = true then
      some (c :: (cs ++ r).takeWhile Char.isDigit,
        (cs ++ r).drop ((cs ++ r).takeWhile Char.isDigit).length)
    else
      match litP "None".data (c :: (cs ++ r)) with
      | some rest => some ("None".data, rest)
      | none => none) = some (c :: cs, r)
  rw [if_pos (show ('1' ≤ c && c ≤ '9') = true by simp [hc1, hc9])]
  rw [takeWhile_all_append cs r hdigits hr]
  rw [List.drop_left]

/-- A one-character literal. -/
theorem litP_one (c : Char) (r : List Char) : litP [c] (c :: r) = some r := by
  simp [litP]

/-- The character data of a rendered timestamp, field by field. -/
theorem display_time_data (t : Int) :
    (display_time t).data = decChars (epochToDateTime t).y ++ '-' ::
      ((pad2 (epochToDateTime t).m).data ++ '-' ::
      ((pad2 (epochToDateTime t).d).data ++ ' ' ::
      ((pad2 (epochToDateTime t).hh).data ++ ':' ::
      ((pad2 (epochToDateTime t).mm).data ++ ':' ::
      (pad2 (epochToDateTime t).ss).data)))) := by
  simp [display_time, String.data_append]

/-- A rendered timestamp of 2000–2099 starts with the digit `'2'`. -/
theorem display_time_head (tm : Int) (ht : timeInRange tm) :
    ∃ u, (display_time tm).data = '2' :: u := by
  obtain ⟨⟨hy1, hy2⟩, _⟩ := epochToDateTime_inv tm ht
  rw [display_time_data, decChars_year _ hy1 hy2]
  exact ⟨_, rfl⟩

/-- `time` parses a rendered timestamp back to the very timestamp:
`calendar.timegm` inverts `display_time` on the renderable range. -/
theorem timeP_display (t : Int) (ht : timeInRange t) (r : List Char) :
    timeP ((display_time t).data ++ r) = some (t, r) := by
  obtain ⟨⟨hy1, hy2⟩, ⟨hm1, hm2⟩, ⟨hd1, hd2⟩, hhh, hmm, hss, htg⟩ := epochToDateTime_inv t ht
  rw [display_time_data t,
    pad2_data (epochToDateTime t).m (by omega),
    pad2_data (epochToDateTime t).d (by omega),
    pad2_data (epochToDateTime t).hh (by omega),
    pad2_data (epochToDateTime t).mm (by omega),
    pad2_data (epochToDateTime t).ss (by omega)]
  simp only [List.cons_append, List.nil_append, List.append_assoc]
  simp [timeP, yearP_render _ hy1 hy2, litP_one, monthP_render _ hm1 hm2,
    dayP_render _ hd1 hd2, hoursP_render _ hhh, minutesP_render _ hmm,
    minutesP_render _ hss, htg]

/-- `history_record` parses a rendered history line back to its
`(is_start, time)` pair. -/
theorem historyRecordP_render (b : Bool) (tm : Int) (ht : timeInRange tm)
    (rest : List Char) (hrest : headNot blankChar rest) :
    historyRecordP (((if b then "Start" else "Stop") ++ "\t" ++ display_time tm).data ++ rest) =
      some ((b, tm), rest) := by
  have hshape : ((if b then "Start" else "Stop") ++ "\t" ++ display_time tm).data ++ rest =
      ((if b then "Start" else "Stop") : String).data ++
        ('\t' :: ((display_time tm).data ++ rest)) := by
    cases b <;> simp [String.data_append]
  rw [hshape]
  obtain ⟨u, hu⟩ := display_time_head tm ht
  have hnb : headNot blankChar ((display_time tm).data ++ rest) := by
    rw [hu]
    show blankChar '2' = false
    rfl
  have hws : wsP ('\t' :: ((display_time tm).data ++ rest)) =
      some ((display_time tm).data ++ rest) := by
    show (if blankChar '\t' = true
      then some (((display_time tm).data ++ rest).dropWhile blankChar) else none) =
      some ((display_time tm).data ++ rest)
    rw [if_pos (show blankChar '\t' = true from rfl), dropWhile_headNot _ hnb]
  simp [historyRecordP, historyRecordTypeP_render, hws, timeP_display tm ht,
    wsOpt_nonblank hrest]

/-- Unfolding one rendered history line. -/
theorem histLines_shape (r : TaskHistoryRecord) (rs : List TaskHistoryRecord) :
    histLines (r :: rs) =
      ((if r.is_start then "Start" else "Stop") ++ "\t" ++ display_time r.time).data ++
        '\n' :: histLines rs := rfl

/-- Rendered history lines start with `'S'` (if at all), so they fail any
predicate that `'S'` fails. -/
theorem histLines_headNot (recs : List TaskHistoryRecord) (p : Char → Bool)
    (hp : p 'S' = false) : headNot p (histLines recs) := by
  cases recs with
  | nil => trivial
  | cons r rs =>
    rw [histLines_shape]
    cases hb : r.is_start <;>
      simp only [hb, if_true, if_false, String.data_append] <;>
      exact (show p 'S' = false from hp)

/-- Every record adds at least one rendered character. -/
theorem histLines_length_le : ∀ rs : List TaskHistoryRecord,
    rs.length ≤ (histLines rs).length := by
  intro rs
  induction rs with
  | nil => exact Nat.le_refl 0
  | cons r rs ih =>
    rw [histLines_shape]
    simp only [List.length_cons, List.length_append, List.length_cons]
    omega

/-- The `(next_history_record)*` loop parses the rendered lines back into
their `(is_start, time)` pairs, leaving the final newline. -/
theorem histRecsLoop_render :
    ∀ (recs : List TaskHistoryRecord) (fuel : Nat), recs.length < fuel →
      (∀ r ∈ recs, timeInRange r.time) →
      histRecsLoop fuel ('\n' :: histLines recs) =
        (recs.map fun r => (r.is_start, r.time), ['\n']) := by
  intro recs
  induction recs with
  | nil =>
    intro fuel hf _
    match fuel, hf with
    | f + 1, _ => rfl
  | cons r rs ih =>
    intro fuel hf htm
    match fuel, hf with
    | f + 1, hf =>
      have hnl : nlPlus ('\n' :: histLines (r :: rs)) = some (histLines (r :: rs)) :=
        nlPlus_cons (histLines_headNot (r :: rs) _ rfl)
      have hrec : historyRecordP (histLines (r :: rs)) =
          some ((r.is_start, r.time), '\n' :: histLines rs) := by
        rw [histLines_shape]
        exact historyRecordP_render r.is_start r.time (htm r (List.mem_cons_self r rs)) _
          (show blankChar '\n' = false from rfl)
      have hih := ih f (by simp at hf ⊢; omega)
        (fun x hx => htm x (List.mem_cons_of_mem _ hx))
      simp [histRecsLoop, hnl, hrec, hih]

/-- The `history` rule parses the rendered history section back; the
leftover is flattened to nothing by the final `newline*`. -/
theorem historyP_render (recs : List TaskHistoryRecord)
    (htm : ∀ r ∈ recs, timeInRange r.time) :
    ∃ r9, historyP ("HISTORY".data ++ '\n' :: histLines recs) =
        some (recs.map fun r => (r.is_start, r.time), r9) ∧ nlStar r9 = [] := by
  cases recs with
  | nil => exact ⟨[], rfl, rfl⟩
  | cons r rs =>
    refine ⟨['\n'], ?_, rfl⟩
    have hl : litP ['H', 'I', 'S', 'T', 'O', 'R', 'Y']
        ('H' :: 'I' :: 'S' :: 'T' :: 'O' :: 'R' :: 'Y' :: '\n' :: histLines (r :: rs)) =
        some ('\n' :: histLines (r :: rs)) :=
      litP_self ['H', 'I', 'S', 'T', 'O', 'R', 'Y'] ('\n' :: histLines (r :: rs))
    have hnl : nlPlus ('\n' :: histLines (r :: rs)) = some (histLines (r :: rs)) :=
      nlPlus_cons (histLines_headNot (r :: rs) _ rfl)
    have hrec : historyRecordP (histLines (r :: rs)) =
        some ((r.is_start, r.time), '\n' :: histLines rs) := by
      rw [histLines_shape]
      exact historyRecordP_render r.is_start r.time (htm r (List.mem_cons_self r rs)) _
        (show blankChar '\n' = false from rfl)
    have hloop := histRecsLoop_render rs ((histLines rs).length + 1 + 1)
      (by have := histLines_length_le rs; omega)
      (fun x hx => htm x (List.mem_cons_of_mem _ hx))
    have hw1 : wsOpt ('H' :: 'I' :: 'S' :: 'T' :: 'O' :: 'R' :: 'Y' :: '\n' :: histLines (r :: rs)) =
        'H' :: 'I' :: 'S' :: 'T' :: 'O' :: 'R' :: 'Y' :: '\n' :: histLines (r :: rs) := rfl
    have hw2 : wsOpt ('\n' :: histLines (r :: rs)) = '\n' :: histLines (r :: rs) := rfl
    simp [historyP, hw1, hl, hw2, hnl, hrec, hloop]

/-- The `name` rule parses a rendered grammar-conformant name line back. -/
theorem nameP_render (nm : String) (hg : goodPhrase nm.data = true) (rest : List Char) :
    nameP (("NAME: " ++ nm).data ++ '\n' :: rest) = some (nm, '\n' :: rest) := by
  obtain ⟨c, tl, hct, hcw⟩ := goodPhrase_head hg
  have hnb : headNot blankChar (nm.data ++ '\n' :: rest) := by
    rw [hct]
    exact word_not_blank hcw
  have hws : wsOpt (' ' :: (nm.data ++ '\n' :: rest)) = nm.data ++ '\n' :: rest :=
    wsOpt_space hnb
  have hp : phraseP (nm.data ++ '\n' :: rest) = some (nm.data, '\n' :: rest) :=
    phraseP_good hg (show wordChar '\n' = false from rfl)
      (show blankChar '\n' = false from rfl)
  have hw2 : wsOpt ('\n' :: rest) = '\n' :: rest := rfl
  simp [nameP, litP, String.data_append, hws, hp, hw2, str_eta]

/-- The `estimate` rule parses a rendered estimate line back: `"None"` for an
absent estimate, the decimal rendering for a positive one. -/
theorem estimateP_render (est : Option Int)
    (hest : match est with | none => True | some n => 1 ≤ n) (rest : List Char) :
    estimateP (("ESTIMATE: " ++ pyStrOptInt est).data ++ '\n' :: rest) =
      some (est, '\n' :: rest) := by
  cases est with
  | none => rfl
  | some n =>
    have h1 : 1 ≤ n := hest
    have hps : pyStrInt n = ⟨decChars n.toNat⟩ := by
      unfold pyStrInt
      rw [if_neg (by omega)]
    have hshape : ("ESTIMATE: " ++ pyStrOptInt (some n)).data ++ '\n' :: rest =
        'E' :: 'S' :: 'T' :: 'I' :: 'M' :: 'A' :: 'T' :: 'E' :: ':' :: ' ' ::
          (decChars n.toNat ++ '\n' :: rest) := by
      show ("ESTIMATE: " ++ pyStrInt n).data ++ '\n' :: rest = _
      rw [hps]
      simp [String.data_append]
    rw [hshape]
    have hint : intP (decChars n.toNat ++ '\n' :: rest) = some (decChars n.toNat, '\n' :: rest) :=
      intP_pos_render n.toNat (by omega) _ (show Char.isDigit '\n' = false from rfl)
    have hne : (⟨decChars n.toNat⟩ : String) ≠ "" := fun h =>
      decChars_ne_nil n.toNat (congrArg String.data h)
    have hpd : pyIsdigit ⟨decChars n.toNat⟩ = true := by
      simp only [pyIsdigit, Bool.and_eq_true, Bool.not_eq_true', beq_eq_false_iff_ne, ne_eq]
      exact ⟨hne, List.all_eq_true.mpr fun c hc => decChars_digits _ c hc⟩
    have hdv : digitStrVal ⟨decChars n.toNat⟩ = n := by
      show Int.ofNat ((decChars n.toNat).foldl (fun a c => a * 10 + (c.toNat - 48)) 0) = n
      rw [val_decChars, Int.ofNat_eq_natCast]
      omega
    have hws : wsOpt (' ' :: (decChars n.toNat ++ '\n' :: rest)) =
        decChars n.toNat ++ '\n' :: rest := by
      obtain ⟨c, cs, hcs, hc1, hc9⟩ := decChars_head_pos n.toNat (by omega)
      refine wsOpt_space ?_
      rw [hcs]
      show blankChar c = false
      have hcd : c.isDigit = true := decChars_digits n.toNat c (by rw [hcs]; exact List.mem_cons_self c cs)
      simp only [Char.isDigit] at hcd
      simp only [blankChar, Bool.or_eq_false_iff, beq_eq_false_iff_ne, ne_eq]
      constructor <;> intro hcc <;> rw [hcc] at hcd <;> simp at hcd
    have hw2 : wsOpt ('\n' :: rest) = '\n' :: rest := rfl
    simp [estimateP, litP, hws, hint, hpd, hdv, hw2]

/-- The `status` rule parses a rendered status line back. -/
theorem statusFieldP_render (st : Status) (rest : List Char) :
    statusFieldP (("STATUS: " ++ st.value).data ++ '\n' :: rest) = some (st, '\n' :: rest) := by
  cases st <;> rfl

/-- The `description` rule parses a rendered description line back: the text
`"None"` for an absent description, the phrase for a present one. -/
theorem descriptionP_render (desc : Option String)
    (hdesc : match desc with
      | none => True
      | some d => goodPhrase d.data = true ∧ d ≠ "None") (rest : List Char) :
    descriptionP (("DESCRIPTION: " ++ pyStrOptStr desc).data ++ '\n' :: rest) =
      some (desc, '\n' :: rest) := by
  cases desc with
  | none => rfl
  | some d =>
    obtain ⟨hg, hne⟩ := hdesc
    obtain ⟨c, tl, hct, hcw⟩ := goodPhrase_head hg
    have hnb : headNot blankChar (d.data ++ '\n' :: rest) := by
      rw [hct]
      exact word_not_blank hcw
    have hws : wsOpt (' ' :: (d.data ++ '\n' :: rest)) = d.data ++ '\n' :: rest :=
      wsOpt_space hnb
    have hp : phraseP (d.data ++ '\n' :: rest) = some (d.data, '\n' :: rest) :=
      phraseP_good hg (show wordChar '\n' = false from rfl)
        (show blankChar '\n' = false from rfl)
    have hbeq : ((⟨d.data⟩ : String) == "None") = false := by
      rw [str_eta]
      exact beq_eq_false_iff_ne.mpr hne
    have hw2 : wsOpt ('\n' :: rest) = '\n' :: rest := rfl
    simp [descriptionP, pyStrOptStr, litP, String.data_append, hws, hp, hbeq, hw2, str_eta,
      hne]

/-- The joined history lines are `histLines`. -/
theorem joinLines_hist : ∀ hist : List TaskHistoryRecord,
    (joinLines (hist.map fun r =>
      (if r.is_start then "Start" else "Stop") ++ "\t" ++ display_time r.time)).data =
      histLines hist := by
  intro hist
  induction hist with
  | nil => rfl
  | cons r rs ih =>
    rw [histLines_shape]
    show ((((if r.is_start then "Start" else "Stop") ++ "\t" ++ display_time r.time) ++ "\n" ++
        joinLines (rs.map fun r =>
          (if r.is_start then "Start" else "Stop") ++ "\t" ++ display_time r.time)).data) = _
    simp [String.data_append, ih]

/-- The character data of a rendered task block, line by line. -/
theorem display_task_data (task : Task) (hist : List TaskHistoryRecord) :
    (display_task task hist).data =
      ("NAME: " ++ task.name).data ++ '\n' ::
      (("ESTIMATE: " ++ pyStrOptInt task.estimate).data ++ '\n' ::
      (("STATUS: " ++ task.status.value).data ++ '\n' ::
      (("DESCRIPTION: " ++ pyStrOptStr task.description).data ++ '\n' ::
      ('\n' ::
      ("HISTORY".data ++ '\n' ::
      histLines hist))))) := by
  show (joinLines (["NAME: " ++ task.name,
      "ESTIMATE: " ++ pyStrOptInt task.estimate,
      "STATUS: " ++ task.status.value,
      "DESCRIPTION: " ++ pyStrOptStr task.description,
      "",
      "HISTORY"] ++
      hist.map (fun r =>
        (if r.is_start then "Start" else "Stop") ++ "\t" ++ display_time r.time))).data = _
  simp [joinLines, String.data_append]
  rw [show (List.foldr (fun l acc => l ++ "\n" ++ acc) ""
      (hist.map fun r =>
        (if r.is_start then "Start" else "Stop") ++ "\t" ++ display_time r.time)).data =
      histLines hist from joinLines_hist hist]

/-- A list whose underlying string starts with the given character fails a
predicate that character fails, also after an append. -/
theorem headNot_data_append {p : Char → Bool} (a b : String) (r : List Char)
    (c : Char) (tl : List Char) (ha : a.data = c :: tl) (hc : p c = false) :
    headNot p ((a ++ b).data ++ r) := by
  rw [String.data_append, ha]
  exact hc

/-- The structural parse of a rendered grammar-conformant task block
consumes the whole block and reassembles exactly the rendered fields. -/
theorem taskP_display (task : Task) (hist : List TaskHistoryRecord)
    (hname : goodPhrase task.name.data = true)
    (hdesc : match task.description with
      | none => True
      | some d => goodPhrase d.data = true ∧ d ≠ "None")
    (hest : match task.estimate with | none => True | some n => 1 ≤ n)
    (htimes : ∀ r ∈ hist, timeInRange r.time) :
    taskP (display_task task hist).data =
      some (⟨task.name, task.estimate, task.description, task.status,
        histPairs hist⟩, []) := by
  rw [display_task_data]
  have h1 := nameP_render task.name hname
    (("ESTIMATE: " ++ pyStrOptInt task.estimate).data ++ '\n' ::
      (("STATUS: " ++ task.status.value).data ++ '\n' ::
      (("DESCRIPTION: " ++ pyStrOptStr task.description).data ++ '\n' ::
      ('\n' :: ("HISTORY".data ++ '\n' :: histLines hist)))))
  have h2 : nlPlus ('\n' ::
      (("ESTIMATE: " ++ pyStrOptInt task.estimate).data ++ '\n' ::
      (("STATUS: " ++ task.status.value).data ++ '\n' ::
      (("DESCRIPTION: " ++ pyStrOptStr task.description).data ++ '\n' ::
      ('\n' :: ("HISTORY".data ++ '\n' :: histLines hist)))))) =
      some (("ESTIMATE: " ++ pyStrOptInt task.estimate).data ++ '\n' ::
      (("STATUS: " ++ task.status.value).data ++ '\n' ::
      (("DESCRIPTION: " ++ pyStrOptStr task.description).data ++ '\n' ::
      ('\n' :: ("HISTORY".data ++ '\n' :: histLines hist))))) :=
    nlPlus_cons (headNot_data_append "ESTIMATE: " _ _ 'E' _ rfl rfl)
  have h3 := estimateP_render task.estimate hest
    (("STATUS: " ++ task.status.value).data ++ '\n' ::
      (("DESCRIPTION: " ++ pyStrOptStr task.description).data ++ '\n' ::
      ('\n' :: ("HISTORY".data ++ '\n' :: histLines hist))))
  have h4 : nlPlus ('\n' ::
      (("STATUS: " ++ task.status.value).data ++ '\n' ::
      (("DESCRIPTION: " ++ pyStrOptStr task.description).data ++ '\n' ::
      ('\n' :: ("HISTORY".data ++ '\n' :: histLines hist))))) =
      some (("STATUS: " ++ task.status.value).data ++ '\n' ::
      (("DESCRIPTION: " ++ pyStrOptStr task.description).data ++ '\n' ::
      ('\n' :: ("HISTORY".data ++ '\n' :: histLines hist)))) :=
    nlPlus_cons (headNot_data_append "STATUS: " _ _ 'S' _ rfl rfl)
  have h5 := statusFieldP_render task.status
    (("DESCRIPTION: " ++ pyStrOptStr task.description).data ++ '\n' ::
      ('\n' :: ("HISTORY".data ++ '\n' :: histLines hist)))
  have h6 : nlPlus ('\n' ::
      (("DESCRIPTION: " ++ pyStrOptStr task.description).data ++ '\n' ::
      ('\n' :: ("HISTORY".data ++ '\n' :: histLines hist)))) =
      some (("DESCRIPTION: " ++ pyStrOptStr task.description).data ++ '\n' ::
      ('\n' :: ("HISTORY".data ++ '\n' :: histLines hist))) :=
    nlPlus_cons (headNot_data_append "DESCRIPTION: " _ _ 'D' _ rfl rfl)
  have h7 := descriptionP_render task.description hdesc
    ('\n' :: ("HISTORY".data ++ '\n' :: histLines hist))
  have h8 : nlPlus ('\n' :: ('\n' :: ("HISTORY".data ++ '\n' :: histLines hist))) =
      some ("HISTORY".data ++ '\n' :: histLines hist) := rfl
  obtain ⟨r9, h9, h10⟩ := historyP_render hist htimes
  simp at h1 h2 h3 h4 h5 h6 h7 h8 h9
  simp [taskP, h1, h2, h3, h4, h5, h6, h7, h8, h9, h10, histPairs, Function.comp]

set_option maxRecDepth 10000 in
/-- C3 counterexample.  A task whose description is the literal string
`"None"` passes `validate_task_data` (which never inspects the description),
yet parsing its rendered block maps the description text `"None"` back to
`None`: the round trip loses the description, refuting the claim as stated
over all validation-accepted inputs. -/
theorem C3_round_trip_cex :
    validate_task_data ⟨"A", none, some "None", Status.todo, []⟩ = .ok () ∧
    parse_task_display (display_task ⟨1, "A", none, some "None", Status.todo, 0⟩ []) =
      .ok ⟨"A", none, none, Status.todo, []⟩ ∧
    (some "None" : Option String) ≠ none := by
  refine ⟨by decide, by decide, by decide⟩

/-- C3 amended.  For every task and history renderable by the grammar —
name and description matching the `phrase` rule (and the description not the
reserved text `"None"`), estimate positive or absent, history times in the
grammar's 2000–2099 year range — and accepted by `validate_task_data`,
parsing the rendered block succeeds and reproduces the task's name,
estimate, description and status, and the history's `(is_start, time)`
pairs in order. -/
theorem C3_round_trip_amended (task : Task) (hist : List TaskHistoryRecord)
    (h : Renderable task hist) :
    parse_task_display (display_task task hist) =
      .ok ⟨task.name, task.estimate, task.description, task.status, histPairs hist⟩ := by
  obtain ⟨hname, hdesc, hest, htimes, hval⟩ := h
  simp [parse_task_display, taskP_display task hist hname hdesc hest htimes, hval]

/-- C3 witness: the round trip on the repository test's task, through the
amended theorem. -/
theorem C3_round_trip_witness :
    parse_task_display (display_task
        ⟨1, "Test Task", some 4, some "This is a test task.", Status.inProgress, 1633036800⟩
        [⟨1, 1, true, 1633036800⟩, ⟨2, 1, false, 1633037200⟩]) =
      .ok ⟨"Test Task", some 4, some "This is a test task.", Status.inProgress,
        histPairs [⟨1, 1, true, 1633036800⟩, ⟨2, 1, false, 1633037200⟩]⟩ :=
  C3_round_trip_amended _ _
    ⟨by decide, ⟨by decide, by decide⟩, by decide,
      (by
        intro r hr
        rcases List.mem_cons.mp hr with rfl | hr2
        · exact ⟨by decide, by decide⟩
        · rcases List.mem_cons.mp hr2 with rfl | hr3
          · exact ⟨by decide, by decide⟩
          · cases hr3),
      by decide⟩

/-- C10.  Finishing a stored `TODO` task writes status `FINISHED` without
inserting any history record (the store's history table and the task's
fetched history stay as they were — empty for this task); the parsed-data
equivalent of such a task fails `validate_task_data` with the
must-have-history message (whose `"%s" % status` interpolation renders the
enum member, `Status.FINISHED`), and parsing the very block `display_task`
renders for it fails with a `VisitationError` wrapping exactly that
validation error, so the edit round trip fails for any task finished
directly from `TODO`. -/
theorem C10_finish_todo (s : Store) (t : Task) (now : Int)
    (hwf : WfStore s) (ht : t ∈ s.tasks) (hst : t.status = Status.todo)
    (hhist : ∀ r ∈ s.history, r.taskid ≠ t.id)
    (hname : goodPhrase t.name.data = true)
    (hdesc : match t.description with
      | none => True
      | some d => goodPhrase d.data = true ∧ d ≠ "None")
    (hest : match t.estimate with | none => True | some n => 1 ≤ n) :
    (∃ s2, finish_task s t.id now = .ok s2 ∧ s2.history = s.history ∧
      get_history s2 [t.id] = [] ∧
      { t with status := Status.finished, last_modified := now } ∈ s2.tasks) ∧
    validate_task_data ⟨t.name, t.estimate, t.description, Status.finished, []⟩ =
      .error "[red]Task Validation Error:[/red] Must have a history if status is Status.FINISHED" ∧
    parse_task_display (display_task
        { t with status := Status.finished, last_modified := now } []) =
      .error (.visitation
        "[red]Task Validation Error:[/red] Must have a history if status is Status.FINISHED") := by
  have hval : validate_task_data ⟨t.name, t.estimate, t.description, Status.finished, []⟩ =
      .error "[red]Task Validation Error:[/red] Must have a history if status is Status.FINISHED" :=
    rfl
  have hg := get_task_by_id s hwf t ht
  refine ⟨⟨⟨s.tasks.map (fun u => if u.id == t.id then
      { u with status := Status.finished, last_modified := now } else u), s.history⟩,
      ?_, rfl, ?_, ?_⟩, hval, ?_⟩
  · unfold finish_task
    rw [hg]
    simp [Bind.bind, Except.bind, hst, update_task_field_status, pure, Except.pure]
  · show pySorted hist_lt (s.history.filter (fun r => [t.id].contains r.taskid)) = []
    have hfil : s.history.filter (fun r => [t.id].contains r.taskid) = [] := by
      rw [List.filter_eq_nil_iff]
      intro r hr
      simp only [List.contains_cons, List.contains_nil, Bool.or_false, Bool.not_eq_true,
        beq_eq_false_iff_ne, ne_eq]
      exact hhist r hr
    rw [hfil]
    rfl
  · exact List.mem_map.mpr ⟨t, ht, by simp⟩
  · have htp := taskP_display { t with status := Status.finished, last_modified := now } []
      hname hdesc hest (by intro r hr; cases hr)
    simp [parse_task_display, htp, histPairs, hval]

/-- C10 witness: finishing the single TODO task of a store with an empty
history table, through the theorem. -/
theorem C10_finish_todo_witness :
    (∃ s2, finish_task ⟨[⟨1, "A", none, none, Status.todo, 0⟩], []⟩ 1 5 = .ok s2 ∧
      s2.history = [] ∧ get_history s2 [1] = [] ∧
      (⟨1, "A", none, none, Status.finished, 5⟩ : Task) ∈ s2.tasks) ∧
    validate_task_data ⟨"A", none, none, Status.finished, []⟩ =
      .error "[red]Task Validation Error:[/red] Must have a history if status is Status.FINISHED" ∧
    parse_task_display (display_task ⟨1, "A", none, none, Status.finished, 5⟩ []) =
      .error (.visitation
        "[red]Task Validation Error:[/red] Must have a history if status is Status.FINISHED") :=
  C10_finish_todo ⟨[⟨1, "A", none, none, Status.todo, 0⟩], []⟩
    ⟨1, "A", none, none, Status.todo, 0⟩ 5
    (by constructor <;> decide) (by decide) rfl
    (by intro r hr; cases hr) (by decide) True.intro True.intro

end Thunter
